import Mathlib

/-! Signer (catapult/crypto/Signer.cpp)

A shallow embedding of the signature engine of `src/catapult/crypto/Signer.cpp`:
`ValidateEncodedSPart`, `IsCanonicalS`, `CheckEncodedS`, `Sign` and `Verify`.

Byte buffers of a fixed size (`std::array<uint8_t, N>`) are lists of bytes of that exact
length.  The hash functions and the ref10 curve arithmetic, which are not part of the file,
are fields of the record `Externals`; what is assumed of them is stated in separate
contracts (`ScReduceContract`, `ScMulAddContract`, `CurveContract`, ...).  `Verify_throwing` is
`Verify` over collaborators that may throw (`ThrowingExternals`).
-/

namespace catapult.crypto

/-! ## Data model -/

/-- One `uint8_t`. -/
abbrev Byte := Fin 256

/-- A byte array of fixed size `n` (`std::array<uint8_t, n>`). -/
abbrev Bytes (n : Nat) := { l : List Byte // l.length = n }

/-- A non-owning view of raw bytes (`RawBuffer`): the bytes it designates. -/
abbrev RawBuffer := List Byte

abbrev Key_Size : Nat := 32
abbrev Signature_Size : Nat := 64
abbrev Hash512_Size : Nat := 64
/-- In the source: `Encoded_Size = Signature_Size / 2`. -/
abbrev Encoded_Size : Nat := 32

abbrev Key := Bytes Key_Size
abbrev PrivateKey := Bytes Key_Size
abbrev Signature := Bytes Signature_Size
abbrev Hash512 := Bytes Hash512_Size

/-- The all-zero array (`std::array<uint8_t, n>{}`, or the result of `memset(_, 0, n)`). -/
def Bytes.zero (n : Nat) : Bytes n := ⟨List.replicate n 0, by simp⟩

/-- Bytes `[0, 32)` of a 64-byte array (`x.data()` read as a 32-byte operand). -/
def Bytes.lo (b : Bytes 64) : Bytes 32 := ⟨b.val.take 32, by simp [b.property]⟩

/-- Bytes `[32, 64)` of a 64-byte array (`x.data() + 32`). -/
def Bytes.hi (b : Bytes 64) : Bytes 32 := ⟨b.val.drop 32, by simp [b.property]⟩

/-- The 64-byte array holding `a` in bytes `[0, 32)` and `b` in bytes `[32, 64)`. -/
def Bytes.cat (a b : Bytes 32) : Bytes 64 := ⟨a.val ++ b.val, by simp [a.property, b.property]⟩

/-- Element read `b[i]`. -/
def Bytes.get {n : Nat} (b : Bytes n) (i : Nat) : Byte := b.val.getD i 0

/-- Element write `b[i] = v`. -/
def Bytes.set {n : Nat} (b : Bytes n) (i : Nat) (v : Byte) : Bytes n :=
  ⟨b.val.set i v, by simp [b.property]⟩

/-- The little-endian integer value of a byte string: `s[0] + 256*s[1] + 256^2*s[2] + ...`. -/
def leValue : List Byte → Nat
  | [] => 0
  | b :: bs => b.val + 256 * leValue bs

/-- The `n`-byte little-endian encoding of `v` (of `v mod 256^n`). -/
def leBytes : Nat → Nat → List Byte
  | 0, _ => []
  | n + 1, v => ⟨v % 256, Nat.mod_lt _ (by decide)⟩ :: leBytes n (v / 256)

/-- The 32-byte little-endian encoding of a scalar. -/
def encodeScalar (v : Nat) : Bytes 32 :=
  ⟨leBytes 32 v,
    (show ∀ n w : Nat, (leBytes n w).length = n from fun n => by
      induction n with
      | zero => intro w; rfl
      | succ n ih => intro w; simp [leBytes, ih]) 32 v⟩

/-- A key pair: the private key and the public key stored with it. -/
structure KeyPair where
  privateKey : PrivateKey
  publicKey : Key

/-- Modelled from the spec: the group order, "the prime order of the cyclic subgroup generated by
the curve's base point" of the standard Edwards-curve signature scheme; ref10 (`sc.h`) documents
it as `l = 2^252 + 27742317777372353535851937790883648493`. -/
def groupOrder : Nat := 2 ^ 252 + 27742317777372353535851937790883648493

/-! ## External collaborators -/

/-- The functions `Signer.cpp` calls and does not define: the hash functions of `Hashes.h` and
`CryptoUtils.h`, and the ref10 scalar (`sc.h`), group-element (`ge.h`) and comparison
(`crypto_verify_32.h`) functions.  `Point` stands for the curve point a `ge_p3` or `ge_p2`
value represents; `none` from `ge_frombytes_negate_vartime` is its failure return `-1`. -/
structure Externals (Point : Type) where
  Sha3_512 : List Byte → Hash512
  HashPrivateKey : PrivateKey → Hash512
  sc_reduce : Bytes 64 → Bytes 64
  sc_muladd : Bytes 32 → Bytes 32 → Bytes 32 → Bytes 32
  ge_scalarmult_base : Bytes 32 → Point
  ge_p3_tobytes : Point → Bytes 32
  ge_frombytes_negate_vartime : Bytes 32 → Option Point
  ge_double_scalarmult_vartime : Bytes 32 → Point → Bytes 32 → Point
  ge_tobytes : Point → Bytes 32
  crypto_verify_32 : Bytes 32 → Bytes 32 → Int

/-- Modelled from the spec: `Sha3_512_Builder` (`Hashes.h`), "a cryptographic hash builder
supporting incremental, multi-chunk hashing that produces a 64-byte digest" over buffers
"conceptually concatenated in a fixed order".  The state is the input absorbed so far. -/
structure Sha3_512_Builder where
  absorbed : List Byte

namespace Sha3_512_Builder

/-- Modelled from the spec: a fresh builder has absorbed nothing. -/
def init : Sha3_512_Builder := ⟨[]⟩

/-- Modelled from the spec: `update(const RawBuffer&)` absorbs one buffer. -/
def update (b : Sha3_512_Builder) (dataBuffer : RawBuffer) : Sha3_512_Builder :=
  ⟨b.absorbed ++ dataBuffer⟩

/-- Modelled from the spec: `update(std::initializer_list<const RawBuffer>)` absorbs the buffers
in order. -/
def updateList (b : Sha3_512_Builder) (buffersList : List RawBuffer) : Sha3_512_Builder :=
  buffersList.foldl update b

/-- Modelled from the spec: `final` yields the 64-byte digest of everything absorbed. -/
def final {Point : Type} (E : Externals Point) (b : Sha3_512_Builder) : Hash512 :=
  E.Sha3_512 b.absorbed

end Sha3_512_Builder

/-! ## Signer.cpp -/

/-- Indicates that the encoded S part of the signature is less than the group order. -/
def Is_Reduced : Nat := 1

/-- Indicates that the encoded S part of the signature is zero. -/
def Is_Zero : Nat := 2

/-- Signer.cpp, `ValidateEncodedSPart`: `encodedBuf` is `encodedTempR` (bytes `[0, 32)`) followed
by `encodedZero` (bytes `[32, 64)`). -/
def ValidateEncodedSPart {Point : Type} (E : Externals Point) (encodedS : Bytes 32) : Nat :=
  let encodedZero : Bytes 32 := Bytes.zero 32
  if encodedS = encodedZero then
    Is_Zero ||| Is_Reduced
  else
    let encodedBuf : Bytes 64 := Bytes.cat encodedS encodedZero
    let encodedBuf := E.sc_reduce encodedBuf
    let encodedTempR := encodedBuf.lo
    if encodedTempR ≠ encodedS then 0 else Is_Reduced

/-- Signer.cpp, `IsCanonicalS`. -/
def IsCanonicalS {Point : Type} (E : Externals Point) (encodedS : Bytes 32) : Bool :=
  Is_Reduced == ValidateEncodedSPart E encodedS

/-- The exception raised by `CATAPULT_THROW_OUT_OF_RANGE`. -/
structure OutOfRange where
  message : String
deriving DecidableEq, Repr

/-- How a call of `Sign` ends: it returns, or it throws. -/
inductive Completion where
  | returned : Completion
  | threw : OutOfRange → Completion
deriving DecidableEq, Repr

/-- Signer.cpp, `CheckEncodedS`. -/
def CheckEncodedS {Point : Type} (E : Externals Point) (encodedS : Bytes 32) : Completion :=
  if 0 = (ValidateEncodedSPart E encodedS &&& Is_Reduced) then
    Completion.threw ⟨"S part of signature invalid"⟩
  else
    Completion.returned

/-- Signer.cpp, `Sign(keyPair, buffersList, computedSignature)`.  `computedSignature` is the
caller's buffer as it is on entry; the result is the buffer as the call leaves it, and how the
call ended.  `encodedR` and `encodedS` are the two halves of that buffer and are written in
place. -/
def Sign {Point : Type} (E : Externals Point) (keyPair : KeyPair) (buffersList : List RawBuffer)
    (computedSignature : Signature) : Signature × Completion :=
  -- Hash the private key to improve randomness.
  let privHash : Hash512 := E.HashPrivateKey keyPair.privateKey
  -- r = H(privHash[256:512] || data)
  let sha3_r := Sha3_512_Builder.init
  let sha3_r := sha3_r.update privHash.hi.val
  let sha3_r := sha3_r.updateList buffersList
  let r : Hash512 := sha3_r.final E
  -- Reduce size of r since we are calculating mod group order anyway
  let r := E.sc_reduce r
  -- R = rModQ * base point
  let rMulBase := E.ge_scalarmult_base r.lo
  let computedSignature := Bytes.cat (E.ge_p3_tobytes rMulBase) computedSignature.hi
  -- h = H(encodedR || public || data)
  let sha3_h := Sha3_512_Builder.init
  let sha3_h := sha3_h.updateList [computedSignature.lo.val, keyPair.publicKey.val]
  let sha3_h := sha3_h.updateList buffersList
  let h : Hash512 := sha3_h.final E
  -- h = h mod group order
  let h := E.sc_reduce h
  -- a = fieldElement(privHash[0:256])
  let privHash := privHash.set 0 (privHash.get 0 &&& 0xf8)
  let privHash := privHash.set 31 (privHash.get 31 &&& 0x7f)
  let privHash := privHash.set 31 (privHash.get 31 ||| 0x40)
  -- S = (r + h * a) mod group order
  let computedSignature := Bytes.cat computedSignature.lo (E.sc_muladd h.lo privHash.lo r.lo)
  -- Throw if encodedS is not less than the group order, don't fail in case encodedS == 0
  (computedSignature, CheckEncodedS E computedSignature.hi)

/-- Signer.cpp, `Sign(keyPair, dataBuffer, computedSignature)`. -/
def Sign_dataBuffer {Point : Type} (E : Externals Point) (keyPair : KeyPair)
    (dataBuffer : RawBuffer) (computedSignature : Signature) : Signature × Completion :=
  Sign E keyPair [dataBuffer] computedSignature

/-- Signer.cpp, `Verify(publicKey, buffersList, signature)`. -/
def Verify {Point : Type} (E : Externals Point) (publicKey : Key) (buffersList : List RawBuffer)
    (signature : Signature) : Bool :=
  let encodedR := signature.lo
  let encodedS := signature.hi
  -- reject if not canonical
  if !IsCanonicalS E encodedS then
    false
  else
    -- reject zero public key, which is known weak key
    let Zero_Key : Key := Bytes.zero Key_Size
    if Zero_Key = publicKey then
      false
    else
      -- h = H(encodedR || public || data)
      let sha3_h := Sha3_512_Builder.init
      let sha3_h := sha3_h.updateList [encodedR.val, publicKey.val]
      let sha3_h := sha3_h.updateList buffersList
      let h : Hash512 := sha3_h.final E
      -- h = h mod group order
      let h := E.sc_reduce h
      -- A = -pub
      match E.ge_frombytes_negate_vartime publicKey with
      | none => false
      | some A =>
        -- R = encodedS * B - h * A
        let R := E.ge_double_scalarmult_vartime h.lo A encodedS
        -- Compare calculated R to given R.
        let checkr := E.ge_tobytes R
        0 == E.crypto_verify_32 checkr encodedR

/-- Signer.cpp, `Verify(publicKey, dataBuffer, signature)`. -/
def Verify_dataBuffer {Point : Type} (E : Externals Point) (publicKey : Key)
    (dataBuffer : RawBuffer) (signature : Signature) : Bool :=
  Verify E publicKey [dataBuffer] signature

/-! ## Verify with collaborators that may throw -/

/-- An exception thrown by a collaborator, by its message. -/
structure Thrown where
  what : String
deriving DecidableEq, Repr

/-- The collaborators `Verify` calls, each of which may throw instead of returning: the hash of
the bytes a `Sha3_512_Builder` absorbed, and the ref10 functions.  The failure return `-1` of
`ge_frombytes_negate_vartime` is the value `none`; it is not an exception. -/
structure ThrowingExternals (Point : Type) where
  Sha3_512 : List Byte → Except Thrown Hash512
  sc_reduce : Bytes 64 → Except Thrown (Bytes 64)
  ge_frombytes_negate_vartime : Bytes 32 → Except Thrown (Option Point)
  ge_double_scalarmult_vartime : Bytes 32 → Point → Bytes 32 → Except Thrown Point
  ge_tobytes : Point → Except Thrown (Bytes 32)
  crypto_verify_32 : Bytes 32 → Bytes 32 → Except Thrown Int

/-- No collaborator throws: every call returns a value. -/
structure ThrowingExternals.NeverThrows {Point : Type} (E : ThrowingExternals Point) : Prop where
  Sha3_512 : ∀ input, ∃ digest, E.Sha3_512 input = Except.ok digest
  sc_reduce : ∀ s, ∃ t, E.sc_reduce s = Except.ok t
  ge_frombytes_negate_vartime : ∀ s, ∃ A, E.ge_frombytes_negate_vartime s = Except.ok A
  ge_double_scalarmult_vartime : ∀ a A b, ∃ R,
    E.ge_double_scalarmult_vartime a A b = Except.ok R
  ge_tobytes : ∀ P, ∃ s, E.ge_tobytes P = Except.ok s
  crypto_verify_32 : ∀ x y, ∃ c, E.crypto_verify_32 x y = Except.ok c

/-- Collaborators that return what the collaborators `E` compute, and do not throw. -/
def ThrowingExternals.ofReturning {Point : Type} (E : Externals Point) : ThrowingExternals Point where
  Sha3_512 input := Except.ok (E.Sha3_512 input)
  sc_reduce s := Except.ok (E.sc_reduce s)
  ge_frombytes_negate_vartime s := Except.ok (E.ge_frombytes_negate_vartime s)
  ge_double_scalarmult_vartime a A b := Except.ok (E.ge_double_scalarmult_vartime a A b)
  ge_tobytes P := Except.ok (E.ge_tobytes P)
  crypto_verify_32 x y := Except.ok (E.crypto_verify_32 x y)

/-- Signer.cpp, `ValidateEncodedSPart`, over collaborators that may throw. -/
def ValidateEncodedSPart_throwing {Point : Type} (E : ThrowingExternals Point)
    (encodedS : Bytes 32) : Except Thrown Nat :=
  let encodedZero : Bytes 32 := Bytes.zero 32
  if encodedS = encodedZero then
    Except.ok (Is_Zero ||| Is_Reduced)
  else do
    let encodedBuf : Bytes 64 := Bytes.cat encodedS encodedZero
    let encodedBuf ← E.sc_reduce encodedBuf
    let encodedTempR := encodedBuf.lo
    Except.ok (if encodedTempR ≠ encodedS then 0 else Is_Reduced)

/-- Signer.cpp, `IsCanonicalS`, over collaborators that may throw. -/
def IsCanonicalS_throwing {Point : Type} (E : ThrowingExternals Point) (encodedS : Bytes 32) :
    Except Thrown Bool := do
  let flags ← ValidateEncodedSPart_throwing E encodedS
  Except.ok (Is_Reduced == flags)

/-- Signer.cpp, `Verify(publicKey, buffersList, signature)`, over collaborators that may throw:
the result is the boolean returned, or the exception that left the call. -/
def Verify_throwing {Point : Type} (E : ThrowingExternals Point) (publicKey : Key)
    (buffersList : List RawBuffer) (signature : Signature) : Except Thrown Bool := do
  let encodedR := signature.lo
  let encodedS := signature.hi
  -- reject if not canonical
  let canonical ← IsCanonicalS_throwing E encodedS
  if !canonical then
    Except.ok false
  else
    -- reject zero public key, which is known weak key
    let Zero_Key : Key := Bytes.zero Key_Size
    if Zero_Key = publicKey then
      Except.ok false
    else do
      -- h = H(encodedR || public || data)
      let sha3_h := Sha3_512_Builder.init
      let sha3_h := sha3_h.updateList [encodedR.val, publicKey.val]
      let sha3_h := sha3_h.updateList buffersList
      let h ← E.Sha3_512 sha3_h.absorbed
      -- h = h mod group order
      let h ← E.sc_reduce h
      -- A = -pub
      match ← E.ge_frombytes_negate_vartime publicKey with
      | none => Except.ok false
      | some A =>
        -- R = encodedS * B - h * A
        let R ← E.ge_double_scalarmult_vartime h.lo A encodedS
        -- Compare calculated R to given R.
        let checkr ← E.ge_tobytes R
        let compared ← E.crypto_verify_32 checkr encodedR
        Except.ok (0 == compared)

/-! ## Contracts of the external collaborators -/

/-- Contract of ref10 `sc_reduce` ("scalar reduction modulo the group order"): the 64 input bytes
are read as a little-endian integer `s`, and bytes `[0, 32)` are overwritten with `s mod l`. -/
def ScReduceContract {Point : Type} (E : Externals Point) : Prop :=
  ∀ s : Bytes 64, (E.sc_reduce s).lo = encodeScalar (leValue s.val % groupOrder)

/-- The part of the contract of ref10 `sc_muladd` that says its output is a scalar reduced
modulo the group order. -/
def ScMulAddReduced {Point : Type} (E : Externals Point) : Prop :=
  ∀ a b c : Bytes 32, leValue (E.sc_muladd a b c).val < groupOrder

/-- Contract of ref10 `sc_muladd`: the output encodes `(a * b + c) mod l`. -/
def ScMulAddContract {Point : Type} (E : Externals Point) : Prop :=
  ∀ a b c : Bytes 32,
    E.sc_muladd a b c = encodeScalar ((leValue a.val * leValue b.val + leValue c.val) % groupOrder)

/-- Contract of `crypto_verify_32` (the constant-time `bytesEqual`): `0` exactly on equal
inputs. -/
def CryptoVerifyContract {Point : Type} (E : Externals Point) : Prop :=
  ∀ x y : Bytes 32, E.crypto_verify_32 x y = 0 ↔ x = y

/-- Contract of the ref10 group-element functions, over the curve group with base point `B`:
- `ge_scalarmult_base a` is `a × B` (ref10 requires `a[31] <= 127`);
- `ge_double_scalarmult_vartime a A b` is `a × A + b × B`;
- `ge_tobytes` and `ge_p3_tobytes` are the one encoding of a point, and it determines the point;
- `ge_frombytes_negate_vartime` decodes an encoded point to its negation;
- the base point has order `groupOrder`;
- no multiple of the base point is encoded by the all-zero key (the point that encoding
  designates lies outside the subgroup the base point generates). -/
structure CurveContract {Point : Type} [AddCommGroup Point] (E : Externals Point) (B : Point) :
    Prop where
  scalarmult_base : ∀ a : Bytes 32, leValue a.val < 2 ^ 255 →
    E.ge_scalarmult_base a = leValue a.val • B
  double_scalarmult : ∀ (a : Bytes 32) (A : Point) (b : Bytes 32),
    E.ge_double_scalarmult_vartime a A b = leValue a.val • A + leValue b.val • B
  tobytes_eq : ∀ P : Point, E.ge_tobytes P = E.ge_p3_tobytes P
  tobytes_injective : ∀ P Q : Point, E.ge_tobytes P = E.ge_tobytes Q → P = Q
  frombytes_negate : ∀ P : Point, E.ge_frombytes_negate_vartime (E.ge_p3_tobytes P) = some (-P)
  order : ∀ n : ℕ, n • B = 0 ↔ groupOrder ∣ n
  nonzero_key : ∀ n : ℕ, E.ge_p3_tobytes (n • B) ≠ Bytes.zero Key_Size

/-- Modelled from the spec: the key-pair component (`KeyGenerator`, not part of the file) derives
the public key from the private key as the encoding of `a × B`, where `a` is the clamped first half
of the private-key hash ("clear the low 3 bits, clear the top bit, set the second-highest bit"). -/
def ExtractPublicKeyFromPrivateKey {Point : Type} (E : Externals Point) (privateKey : PrivateKey) :
    Key :=
  let h : Hash512 := E.HashPrivateKey privateKey
  let h := h.set 0 (h.get 0 &&& 0xf8)
  let h := h.set 31 (h.get 31 &&& 0x7f)
  let h := h.set 31 (h.get 31 ||| 0x40)
  E.ge_p3_tobytes (E.ge_scalarmult_base h.lo)

/-! ## The components of the spec (§4.1 to §4.4) -/

/-- Signer.cpp, `Sign`, the three statements under "a = fieldElement(privHash[0:256])": the
private-key hash after they ran. -/
def clamp (privHash : Hash512) : Hash512 :=
  let privHash := privHash.set 0 (privHash.get 0 &&& 0xf8)
  let privHash := privHash.set 31 (privHash.get 31 &&& 0x7f)
  let privHash := privHash.set 31 (privHash.get 31 ||| 0x40)
  privHash

/-- Spec §4.1, nonce derivation: "hash-of-private-key bytes [32:64) followed by the message
buffer sequence, hashed together", the digest "reduced modulo the group order to a scalar". -/
def nonceScalar {Point : Type} (E : Externals Point) (privateKey : PrivateKey)
    (buffersList : List RawBuffer) : Bytes 32 :=
  (E.sc_reduce (E.Sha3_512 ((E.HashPrivateKey privateKey).hi.val ++ buffersList.flatten))).lo

/-- Spec §4.2, commitment: "commitment_scalar × base_point; encode to 32 bytes". -/
def commitment {Point : Type} (E : Externals Point) (privateKey : PrivateKey)
    (buffersList : List RawBuffer) : Bytes 32 :=
  E.ge_p3_tobytes (E.ge_scalarmult_base (nonceScalar E privateKey buffersList))

/-- Spec §4.3, challenge derivation: "digest over (encoded commitment ‖ public key ‖ message…),
reduced modulo group order". -/
def challengeScalar {Point : Type} (E : Externals Point) (encodedR : Bytes 32) (publicKey : Key)
    (buffersList : List RawBuffer) : Bytes 32 :=
  (E.sc_reduce (E.Sha3_512 (encodedR.val ++ publicKey.val ++ buffersList.flatten))).lo

/-- Spec §4.4, the clamped private scalar: "take the first half of the private-key hash digest,
clear the low 3 bits, clear the top bit, set the second-highest bit". -/
def clampedScalar (privHash : Hash512) : Bytes 32 :=
  (clamp privHash).lo

/-- Spec §4.4, the response as `Sign` composes it: `scalarMultAdd(h, a, r)`. -/
def response {Point : Type} (E : Externals Point) (keyPair : KeyPair)
    (buffersList : List RawBuffer) : Bytes 32 :=
  E.sc_muladd
    (challengeScalar E (commitment E keyPair.privateKey buffersList) keyPair.publicKey buffersList)
    (clampedScalar (E.HashPrivateKey keyPair.privateKey))
    (nonceScalar E keyPair.privateKey buffersList)

/-! ## A model of the external collaborators -/

instance groupOrder_neZero : NeZero groupOrder := ⟨by decide⟩

/-- A model of the collaborators: the scalar functions compute modulo `groupOrder`, the group is
the cyclic group `ℤ/groupOrder` with base point `1`, a point `P` is encoded as the scalar
`P + 1`, and the two hash functions are given. -/
def cyclicModel (hash : List Byte → Hash512) (hashPrivateKey : PrivateKey → Hash512) :
    Externals (ZMod groupOrder) where
  Sha3_512 := hash
  HashPrivateKey := hashPrivateKey
  sc_reduce s := Bytes.cat (encodeScalar (leValue s.val % groupOrder)) s.hi
  sc_muladd a b c := encodeScalar ((leValue a.val * leValue b.val + leValue c.val) % groupOrder)
  ge_scalarmult_base a := (leValue a.val : ZMod groupOrder)
  ge_p3_tobytes P := encodeScalar (P.val + 1)
  ge_frombytes_negate_vartime s :=
    if 1 ≤ leValue s.val ∧ leValue s.val ≤ groupOrder then
      some (-((leValue s.val - 1 : ℕ) : ZMod groupOrder))
    else none
  ge_double_scalarmult_vartime a A b := leValue a.val • A + (leValue b.val : ZMod groupOrder)
  ge_tobytes P := encodeScalar (P.val + 1)
  crypto_verify_32 x y := if x = y then 0 else -1

/-- A digest whose first byte is `b` and whose other bytes are zero. -/
def digestOfByte (b : Byte) : Hash512 := ⟨b :: List.replicate 63 0, by simp⟩

/-- A toy hash function: the digest carries one more than the sum of the input bytes. -/
def sumHash (input : List Byte) : Hash512 := digestOfByte (input.foldl (· + ·) 1)

/-- A toy hash function whose digest is all zero. -/
def zeroHash (_ : List Byte) : Hash512 := Bytes.zero 64

/-- The model of the collaborators with the toy hash `sumHash`. -/
def sampleModel : Externals (ZMod groupOrder) :=
  cyclicModel sumHash (fun privateKey => sumHash privateKey.val)

/-- The model of the collaborators in which every digest is all zero. -/
def zeroHashModel : Externals (ZMod groupOrder) :=
  cyclicModel zeroHash (fun _ => Bytes.zero 64)

/-- Collaborators of which `sc_muladd` breaks its contract: it returns the encoding of the group
order itself, which is not reduced. -/
def faultyModel : Externals (ZMod groupOrder) :=
  { sampleModel with sc_muladd := fun _ _ _ => encodeScalar groupOrder }

/-- A key pair of `sampleModel`: the private key is all zero, the public key is derived. -/
def sampleKeyPair : KeyPair :=
  ⟨Bytes.zero 32, ExtractPublicKeyFromPrivateKey sampleModel (Bytes.zero 32)⟩

/-- A key pair of `zeroHashModel`: the private key is all zero, the public key is derived. -/
def zeroHashKeyPair : KeyPair :=
  ⟨Bytes.zero 32, ExtractPublicKeyFromPrivateKey zeroHashModel (Bytes.zero 32)⟩

/-- A three-byte message in one buffer. -/
def sampleMessage : List RawBuffer := [[1, 2, 3]]

/-! ## Little-endian encodings -/

theorem leBytes_length (n v : Nat) : (leBytes n v).length = n := by
  induction n generalizing v with
  | zero => rfl
  | succ n ih => simp [leBytes, ih]

theorem leValue_leBytes (n v : Nat) : leValue (leBytes n v) = v % 256 ^ n := by
  induction n generalizing v with
  | zero => simp [leBytes, leValue, Nat.mod_one]
  | succ n ih =>
    simp only [leBytes, leValue, ih]
    rw [pow_succ, mul_comm (256 ^ n) 256, Nat.mod_mul]

theorem leBytes_leValue (bs : List Byte) : leBytes bs.length (leValue bs) = bs := by
  induction bs with
  | nil => rfl
  | cons b bs ih =>
    have hb : b.val < 256 := b.isLt
    have h1 : (b.val + 256 * leValue bs) % 256 = b.val := by omega
    have h2 : (b.val + 256 * leValue bs) / 256 = leValue bs := by omega
    simp only [List.length_cons, leBytes, leValue, h2, ih]
    congr 1
    exact Fin.ext h1

theorem leValue_lt (bs : List Byte) : leValue bs < 256 ^ bs.length := by
  induction bs with
  | nil => simp [leValue]
  | cons b bs ih =>
    have hb : b.val < 256 := b.isLt
    simp only [leValue, List.length_cons, pow_succ]
    omega

theorem leValue_append (as bs : List Byte) :
    leValue (as ++ bs) = leValue as + 256 ^ as.length * leValue bs := by
  induction as with
  | nil => simp [leValue]
  | cons a as ih =>
    have hcons : leValue (a :: as ++ bs) = a.val + 256 * leValue (as ++ bs) := rfl
    have hhead : leValue (a :: as) = a.val + 256 * leValue as := rfl
    rw [hcons, ih, hhead, List.length_cons, pow_succ]
    ring

theorem leValue_replicate_zero (n : Nat) : leValue (List.replicate n (0 : Byte)) = 0 := by
  induction n with
  | zero => rfl
  | succ n ih => simp [List.replicate_succ, leValue, ih]

theorem leBytes_zero (n : Nat) : leBytes n 0 = List.replicate n (0 : Byte) := by
  induction n with
  | zero => rfl
  | succ n ih =>
    simp only [leBytes, Nat.zero_div, ih, List.replicate_succ]
    rfl

theorem leValue_injective {as bs : List Byte} (hlen : as.length = bs.length)
    (h : leValue as = leValue bs) : as = bs := by
  rw [← leBytes_leValue as, ← leBytes_leValue bs, hlen, h]

theorem groupOrder_pos : 0 < groupOrder := by decide

theorem groupOrder_lt : groupOrder < 2 ^ 253 := by decide

theorem Bytes.value_lt (s : Bytes 32) : leValue s.val < 2 ^ 256 := by
  have h := leValue_lt s.val
  rw [s.property] at h
  exact lt_of_lt_of_eq h (by norm_num)

theorem Bytes.eq_of_value_eq {n : Nat} {s t : Bytes n} (h : leValue s.val = leValue t.val) :
    s = t :=
  Subtype.ext (leValue_injective (s.property.trans t.property.symm) h)

theorem Bytes.zero_value (n : Nat) : leValue (Bytes.zero n).val = 0 :=
  leValue_replicate_zero n

theorem Bytes.eq_zero_iff {n : Nat} (s : Bytes n) : s = Bytes.zero n ↔ leValue s.val = 0 :=
  ⟨fun h => h ▸ Bytes.zero_value n, fun h => Bytes.eq_of_value_eq (h.trans (Bytes.zero_value n).symm)⟩

theorem leValue_encodeScalar (v : Nat) : leValue (encodeScalar v).val = v % 2 ^ 256 := by
  show leValue (leBytes 32 v) = _
  rw [leValue_leBytes]
  norm_num

theorem leValue_encodeScalar_of_lt {v : Nat} (h : v < 2 ^ 256) :
    leValue (encodeScalar v).val = v := by
  rw [leValue_encodeScalar, Nat.mod_eq_of_lt h]

theorem encodeScalar_leValue (s : Bytes 32) : encodeScalar (leValue s.val) = s :=
  Bytes.eq_of_value_eq (leValue_encodeScalar_of_lt s.value_lt)

theorem encodeScalar_zero : encodeScalar 0 = Bytes.zero 32 :=
  Subtype.ext (leBytes_zero 32)

theorem Bytes.lo_cat (a b : Bytes 32) : (Bytes.cat a b).lo = a :=
  Subtype.ext (by simp [Bytes.lo, Bytes.cat, a.property])

theorem Bytes.hi_cat (a b : Bytes 32) : (Bytes.cat a b).hi = b :=
  Subtype.ext (by simp [Bytes.hi, Bytes.cat, a.property])

theorem Bytes.cat_lo_hi (x : Bytes 64) : Bytes.cat x.lo x.hi = x :=
  Subtype.ext (by simp [Bytes.lo, Bytes.hi, Bytes.cat])

theorem Bytes.value_cat_zero (s : Bytes 32) :
    leValue (Bytes.cat s (Bytes.zero 32)).val = leValue s.val := by
  show leValue (s.val ++ List.replicate 32 0) = _
  rw [leValue_append, leValue_replicate_zero]
  simp

/-! ## The canonicalization guard -/

/-- Under the contract of `sc_reduce`, the flags `ValidateEncodedSPart` returns are decided by
the numeric value of the encoding. -/
theorem ValidateEncodedSPart_eq {Point : Type} (E : Externals Point) (hred : ScReduceContract E)
    (encodedS : Bytes 32) :
    ValidateEncodedSPart E encodedS =
      if leValue encodedS.val = 0 then Is_Zero ||| Is_Reduced
      else if leValue encodedS.val < groupOrder then Is_Reduced else 0 := by
  unfold ValidateEncodedSPart
  simp only [Bytes.eq_zero_iff]
  split
  · rfl
  · rw [hred, Bytes.value_cat_zero]
    by_cases hlt : leValue encodedS.val < groupOrder
    · rw [Nat.mod_eq_of_lt hlt, encodeScalar_leValue]
      simp [hlt]
    · have hne : encodeScalar (leValue encodedS.val % groupOrder) ≠ encodedS := by
        intro h
        apply hlt
        have h2 := congrArg (fun t : Bytes 32 => leValue t.val) h
        simp only at h2
        rw [leValue_encodeScalar_of_lt
          (lt_trans (Nat.mod_lt _ groupOrder_pos) (lt_trans groupOrder_lt (by norm_num)))] at h2
        rw [← h2]
        exact Nat.mod_lt _ groupOrder_pos
      simp [hne, hlt]

theorem IsCanonicalS_iff {Point : Type} (E : Externals Point) (hred : ScReduceContract E)
    (encodedS : Bytes 32) :
    IsCanonicalS E encodedS = true ↔ 0 < leValue encodedS.val ∧ leValue encodedS.val < groupOrder := by
  unfold IsCanonicalS
  rw [ValidateEncodedSPart_eq E hred]
  by_cases h0 : leValue encodedS.val = 0
  · simp [h0, Is_Reduced, Is_Zero]
  · by_cases hlt : leValue encodedS.val < groupOrder
    · simp [h0, hlt, Is_Reduced, Nat.pos_of_ne_zero h0]
    · simp [h0, hlt, Is_Reduced]

theorem CheckEncodedS_returned_iff {Point : Type} (E : Externals Point) (hred : ScReduceContract E)
    (encodedS : Bytes 32) :
    CheckEncodedS E encodedS = Completion.returned ↔ leValue encodedS.val < groupOrder := by
  unfold CheckEncodedS
  rw [ValidateEncodedSPart_eq E hred]
  by_cases h0 : leValue encodedS.val = 0
  · simp [h0, Is_Reduced, Is_Zero, groupOrder_pos]
  · by_cases hlt : leValue encodedS.val < groupOrder
    · simp [h0, hlt, Is_Reduced]
    · simp [h0, hlt, Is_Reduced]

/-! ## The hash builder -/

theorem Sha3_512_Builder.updateList_absorbed (b : Sha3_512_Builder) (buffersList : List RawBuffer) :
    (b.updateList buffersList).absorbed = b.absorbed ++ buffersList.flatten := by
  unfold Sha3_512_Builder.updateList
  induction buffersList generalizing b with
  | nil => simp
  | cons x xs ih => simp [List.foldl_cons, ih, Sha3_512_Builder.update, List.append_assoc]

/-- The buffer `Sign` leaves is the commitment followed by the response. -/
theorem Sign_fst {Point : Type} (E : Externals Point) (keyPair : KeyPair)
    (buffersList : List RawBuffer) (computedSignature : Signature) :
    (Sign E keyPair buffersList computedSignature).1 =
      Bytes.cat (commitment E keyPair.privateKey buffersList) (response E keyPair buffersList) := by
  simp only [Sign, response, commitment, challengeScalar, nonceScalar, clampedScalar, clamp,
    Sha3_512_Builder.final, Sha3_512_Builder.updateList_absorbed, Sha3_512_Builder.update,
    Sha3_512_Builder.init, Bytes.lo_cat, List.nil_append, List.flatten_cons, List.flatten_nil,
    List.append_nil, List.append_assoc]

/-- The call of `Sign` ends as `CheckEncodedS` on the response ends. -/
theorem Sign_snd {Point : Type} (E : Externals Point) (keyPair : KeyPair)
    (buffersList : List RawBuffer) (computedSignature : Signature) :
    (Sign E keyPair buffersList computedSignature).2 =
      CheckEncodedS E (response E keyPair buffersList) := by
  simp only [Sign, response, commitment, challengeScalar, nonceScalar, clampedScalar, clamp,
    Sha3_512_Builder.final, Sha3_512_Builder.updateList_absorbed, Sha3_512_Builder.update,
    Sha3_512_Builder.init, Bytes.lo_cat, Bytes.hi_cat, List.nil_append, List.flatten_cons,
    List.flatten_nil, List.append_nil, List.append_assoc]

/-- The steps of `Verify` as one boolean expression. -/
theorem Verify_eq {Point : Type} (E : Externals Point) (publicKey : Key)
    (buffersList : List RawBuffer) (signature : Signature) :
    Verify E publicKey buffersList signature =
      (IsCanonicalS E signature.hi && decide (publicKey ≠ Bytes.zero Key_Size) &&
        match E.ge_frombytes_negate_vartime publicKey with
        | none => false
        | some A =>
          0 == E.crypto_verify_32
            (E.ge_tobytes (E.ge_double_scalarmult_vartime
              (challengeScalar E signature.lo publicKey buffersList) A signature.hi))
            signature.lo) := by
  simp only [Verify, challengeScalar, Sha3_512_Builder.final,
    Sha3_512_Builder.updateList_absorbed, Sha3_512_Builder.init, List.nil_append,
    List.flatten_cons, List.flatten_nil, List.append_nil, List.append_assoc]
  by_cases hc : IsCanonicalS E signature.hi = true
  · by_cases hz : Bytes.zero Key_Size = publicKey
    · simp [hc, hz]
    · have hz2 : publicKey ≠ Bytes.zero Key_Size := fun h => hz h.symm
      simp [hc, hz, hz2]
  · simp [hc]

/-! ## The model meets the contracts -/

theorem cyclicModel_scReduce (hash : List Byte → Hash512) (hp : PrivateKey → Hash512) :
    ScReduceContract (cyclicModel hash hp) := fun _ => Bytes.lo_cat _ _

theorem cyclicModel_scMulAdd (hash : List Byte → Hash512) (hp : PrivateKey → Hash512) :
    ScMulAddContract (cyclicModel hash hp) := fun _ _ _ => rfl

theorem cyclicModel_cryptoVerify (hash : List Byte → Hash512) (hp : PrivateKey → Hash512) :
    CryptoVerifyContract (cyclicModel hash hp) := by
  intro x y
  show (if x = y then (0 : Int) else -1) = 0 ↔ x = y
  by_cases h : x = y <;> simp [h]

theorem encodePoint_value (P : ZMod groupOrder) :
    leValue (encodeScalar (P.val + 1)).val = P.val + 1 := by
  apply leValue_encodeScalar_of_lt
  have h1 := ZMod.val_lt P
  have h2 := groupOrder_lt
  have h3 : (2:ℕ) ^ 253 < 2 ^ 256 := by norm_num
  omega

theorem encodePoint_injective (P Q : ZMod groupOrder)
    (h : encodeScalar (P.val + 1) = encodeScalar (Q.val + 1)) : P = Q := by
  have h2 : leValue (encodeScalar (P.val + 1)).val = leValue (encodeScalar (Q.val + 1)).val := by
    rw [h]
  rw [encodePoint_value, encodePoint_value] at h2
  exact ZMod.val_injective _ (Nat.succ_injective h2)

theorem cyclicModel_tobytes (hash : List Byte → Hash512) (hp : PrivateKey → Hash512)
    (P : ZMod groupOrder) : (cyclicModel hash hp).ge_tobytes P = encodeScalar (P.val + 1) := rfl

theorem cyclicModel_p3_tobytes (hash : List Byte → Hash512) (hp : PrivateKey → Hash512)
    (P : ZMod groupOrder) : (cyclicModel hash hp).ge_p3_tobytes P = encodeScalar (P.val + 1) := rfl

theorem cyclicModel_frombytes (hash : List Byte → Hash512) (hp : PrivateKey → Hash512)
    (s : Bytes 32) : (cyclicModel hash hp).ge_frombytes_negate_vartime s =
      if 1 ≤ leValue s.val ∧ leValue s.val ≤ groupOrder then
        some (-((leValue s.val - 1 : ℕ) : ZMod groupOrder))
      else none := rfl

theorem cyclicModel_scalarmult_base (hash : List Byte → Hash512) (hp : PrivateKey → Hash512)
    (a : Bytes 32) : (cyclicModel hash hp).ge_scalarmult_base a = (leValue a.val : ZMod groupOrder) :=
  rfl

theorem cyclicModel_double_scalarmult (hash : List Byte → Hash512) (hp : PrivateKey → Hash512)
    (a : Bytes 32) (A : ZMod groupOrder) (b : Bytes 32) :
    (cyclicModel hash hp).ge_double_scalarmult_vartime a A b =
      leValue a.val • A + (leValue b.val : ZMod groupOrder) := rfl

theorem cyclicModel_curve (hash : List Byte → Hash512) (hp : PrivateKey → Hash512) :
    CurveContract (cyclicModel hash hp) (1 : ZMod groupOrder) where
  scalarmult_base a _ := by
    rw [cyclicModel_scalarmult_base, nsmul_one]
  double_scalarmult a A b := by
    rw [cyclicModel_double_scalarmult, nsmul_one]
  tobytes_eq _ := rfl
  tobytes_injective P Q h := by
    rw [cyclicModel_tobytes, cyclicModel_tobytes] at h
    exact encodePoint_injective P Q h
  frombytes_negate P := by
    rw [cyclicModel_p3_tobytes, cyclicModel_frombytes, encodePoint_value]
    have h1 := ZMod.val_lt P
    rw [if_pos ⟨Nat.le_add_left 1 _, h1⟩, Nat.add_sub_cancel, ZMod.natCast_zmod_val]
  order n := by
    rw [nsmul_one]
    exact ZMod.natCast_zmod_eq_zero_iff_dvd n groupOrder
  nonzero_key n := by
    intro h
    rw [cyclicModel_p3_tobytes] at h
    have h2 : leValue (encodeScalar ((n • (1 : ZMod groupOrder)).val + 1)).val =
        leValue (Bytes.zero Key_Size).val := by rw [h]
    rw [encodePoint_value, Bytes.zero_value] at h2
    exact Nat.succ_ne_zero _ h2

/-! ## Clamping -/

theorem clamp_val (h : Hash512) :
    (clamp h).val = (h.val.set 0 (h.get 0 &&& 0xf8)).set 31 ((h.get 31 &&& 0x7f) ||| 0x40) := by
  have hl : h.val.length = 64 := h.property
  simp only [clamp, Bytes.set, Bytes.get, List.getD_eq_getElem?_getD]
  simp [List.getElem?_set, hl, List.set_set]

theorem clamp_hi (h : Hash512) : (clamp h).hi = h.hi := by
  apply Subtype.ext
  show (clamp h).val.drop 32 = h.val.drop 32
  rw [clamp_val]
  apply List.ext_getElem?
  intro i
  simp only [List.getElem?_drop, List.getElem?_set]
  rw [if_neg (by omega), if_neg (by omega)]

theorem clampedScalar_get (h : Hash512) (i : Nat) (hi : i < 32) :
    (clampedScalar h).get i =
      if i = 0 then h.get 0 &&& 0xf8
      else if i = 31 then (h.get 31 &&& 0x7f) ||| 0x40
      else h.get i := by
  have hl : h.val.length = 64 := h.property
  show ((clamp h).val.take 32).getD i 0 = _
  rw [clamp_val]
  simp only [Bytes.get, List.getD_eq_getElem?_getD, List.getElem?_take, hi, if_true,
    List.getElem?_set]
  by_cases h0 : i = 0
  · subst h0; simp [hl]
  · by_cases h31 : i = 31
    · subst h31; simp [hl]
    · have h1 : ¬ 31 = i := fun e => h31 e.symm
      have h2 : ¬ 0 = i := fun e => h0 e.symm
      simp [h0, h31, h1, h2]


theorem Bytes.value_head (s : Bytes 32) :
    leValue s.val = (s.get 0).val + 256 * leValue s.val.tail := by
  obtain ⟨l, hl⟩ := s
  cases l with
  | nil => simp at hl
  | cons b bs => rfl

theorem Bytes.value_last (s : Bytes 32) :
    leValue s.val = leValue (s.val.take 31) + 256 ^ 31 * (s.get 31).val := by
  have hl : s.val.length = 32 := s.property
  have h31 : 31 < s.val.length := by omega
  have h1 : s.val.drop 31 = s.val[31] :: s.val.drop 32 := List.drop_eq_getElem_cons h31
  have h2 : s.val.drop 32 = [] := List.drop_eq_nil_of_le (by omega)
  have h3 : s.get 31 = s.val[31] := by
    simp [Bytes.get, List.getD_eq_getElem?_getD, List.getElem?_eq_getElem h31]
  have hsplit : s.val = s.val.take 31 ++ [s.get 31] := by
    rw [h3, ← h2, ← h1, List.take_append_drop]
  conv_lhs => rw [hsplit]
  rw [leValue_append]
  simp [leValue, hl]

set_option maxRecDepth 100000 in
theorem clear_low_bits (b : Byte) : (b &&& 0xf8).val % 8 = 0 ∧ (b &&& 0xf8).val / 8 = b.val / 8 := by
  revert b
  decide

set_option maxRecDepth 100000 in
theorem clamp_high_bits (b : Byte) :
    64 ≤ ((b &&& 0x7f) ||| 0x40).val ∧ ((b &&& 0x7f) ||| 0x40).val < 128 ∧
      ((b &&& 0x7f) ||| 0x40).val % 64 = b.val % 64 := by
  revert b
  decide

theorem clampedScalar_value (h : Hash512) :
    leValue (clampedScalar h).val % 8 = 0 ∧ 2 ^ 254 ≤ leValue (clampedScalar h).val ∧
      leValue (clampedScalar h).val < 2 ^ 255 := by
  have h0 := clampedScalar_get h 0 (by decide)
  have h31 := clampedScalar_get h 31 (by decide)
  simp only [if_true] at h0
  rw [if_neg (by decide), if_pos rfl] at h31
  have hb0 := (clear_low_bits (h.get 0)).1
  have hb31 := clamp_high_bits (h.get 31)
  rw [← h0] at hb0
  rw [← h31] at hb31
  have hhead := Bytes.value_head (clampedScalar h)
  have hlast := Bytes.value_last (clampedScalar h)
  have hlt := leValue_lt ((clampedScalar h).val.take 31)
  have hlen : ((clampedScalar h).val.take 31).length = 31 := by
    simp [(clampedScalar h).property]
  rw [hlen] at hlt
  have e1 : (256 : ℕ) ^ 31 = 2 ^ 248 := by norm_num
  have e2 : (2 : ℕ) ^ 254 = 64 * 2 ^ 248 := by norm_num
  have e3 : (2 : ℕ) ^ 255 = 128 * 2 ^ 248 := by norm_num
  rw [e1] at hlt hlast
  rw [e2, e3]
  generalize (2 : ℕ) ^ 248 = p at hlt hlast ⊢
  refine ⟨by omega, ?_, ?_⟩
  · rw [hlast]
    nlinarith [hb31.1]
  · rw [hlast]
    nlinarith [hb31.2.1]

/-! ## The verification equation -/

theorem CurveContract.nsmul_mod {Point : Type} [AddCommGroup Point] {E : Externals Point}
    {B : Point} (hcurve : CurveContract E B) (n : ℕ) : (n % groupOrder) • B = n • B := by
  have h0 : (groupOrder * (n / groupOrder)) • B = 0 :=
    (hcurve.order _).mpr (Dvd.intro _ rfl)
  conv_rhs => rw [← Nat.div_add_mod n groupOrder, add_nsmul, h0, zero_add]

theorem reduced_value_lt (v : ℕ) : leValue (encodeScalar (v % groupOrder)).val = v % groupOrder :=
  leValue_encodeScalar_of_lt
    (lt_trans (Nat.mod_lt _ groupOrder_pos) (lt_trans groupOrder_lt (by norm_num)))

theorem nonceScalar_lt {Point : Type} (E : Externals Point) (hred : ScReduceContract E)
    (privateKey : PrivateKey) (buffersList : List RawBuffer) :
    leValue (nonceScalar E privateKey buffersList).val < groupOrder := by
  unfold nonceScalar
  rw [hred, reduced_value_lt]
  exact Nat.mod_lt _ groupOrder_pos

theorem response_value {Point : Type} (E : Externals Point) (hma : ScMulAddContract E)
    (keyPair : KeyPair) (buffersList : List RawBuffer) :
    leValue (response E keyPair buffersList).val =
      (leValue (challengeScalar E (commitment E keyPair.privateKey buffersList) keyPair.publicKey
          buffersList).val * leValue (clampedScalar (E.HashPrivateKey keyPair.privateKey)).val +
        leValue (nonceScalar E keyPair.privateKey buffersList).val) % groupOrder := by
  unfold response
  rw [hma, reduced_value_lt]

theorem ExtractPublicKeyFromPrivateKey_eq {Point : Type} (E : Externals Point)
    (privateKey : PrivateKey) :
    ExtractPublicKeyFromPrivateKey E privateKey =
      E.ge_p3_tobytes (E.ge_scalarmult_base (clampedScalar (E.HashPrivateKey privateKey))) := rfl

/-- The verification equation holds for the signature `Sign` computes, whenever its response is
canonical for `Verify`. -/
theorem Verify_commitment_response {Point : Type} [AddCommGroup Point] (E : Externals Point)
    (B : Point) (hred : ScReduceContract E) (hma : ScMulAddContract E)
    (hcv : CryptoVerifyContract E) (hcurve : CurveContract E B) (keyPair : KeyPair)
    (hpk : keyPair.publicKey = ExtractPublicKeyFromPrivateKey E keyPair.privateKey)
    (buffersList : List RawBuffer)
    (hne : response E keyPair buffersList ≠ Bytes.zero 32) :
    Verify E keyPair.publicKey buffersList
      (Bytes.cat (commitment E keyPair.privateKey buffersList) (response E keyPair buffersList)) =
        true := by
  have hS := response_value E hma keyPair buffersList
  have hr := nonceScalar_lt E hred keyPair.privateKey buffersList
  have ha := (clampedScalar_value (E.HashPrivateKey keyPair.privateKey)).2.2
  have hcan : IsCanonicalS E (response E keyPair buffersList) = true := by
    rw [IsCanonicalS_iff E hred]
    refine ⟨Nat.pos_of_ne_zero fun h0 => hne ((Bytes.eq_zero_iff _).mpr h0), ?_⟩
    rw [hS]
    exact Nat.mod_lt _ groupOrder_pos
  have hpkB : keyPair.publicKey = E.ge_p3_tobytes
      (leValue (clampedScalar (E.HashPrivateKey keyPair.privateKey)).val • B) := by
    rw [hpk, ExtractPublicKeyFromPrivateKey_eq, hcurve.scalarmult_base _ ha]
  have hR : commitment E keyPair.privateKey buffersList = E.ge_p3_tobytes
      (leValue (nonceScalar E keyPair.privateKey buffersList).val • B) := by
    unfold commitment
    rw [hcurve.scalarmult_base _ (lt_trans hr (lt_trans groupOrder_lt (by norm_num)))]
  have hnz : keyPair.publicKey ≠ Bytes.zero Key_Size := by
    rw [hpkB]
    exact hcurve.nonzero_key _
  have hdec : E.ge_frombytes_negate_vartime keyPair.publicKey =
      some (-(leValue (clampedScalar (E.HashPrivateKey keyPair.privateKey)).val • B)) := by
    rw [hpkB, hcurve.frombytes_negate]
  rw [Verify_eq, Bytes.lo_cat, Bytes.hi_cat, hcan, hdec]
  simp only [hnz, ne_eq, not_false_eq_true, decide_True, Bool.and_self, Bool.true_and,
    beq_iff_eq]
  rw [eq_comm, hcv, hcurve.double_scalarmult, hcurve.tobytes_eq, hS, hcurve.nsmul_mod]
  conv_rhs => rw [hR]
  congr 1
  rw [add_nsmul, mul_nsmul', smul_neg]
  abel

theorem Verify_of_not_canonical {Point : Type} (E : Externals Point) (publicKey : Key)
    (buffersList : List RawBuffer) (signature : Signature)
    (h : IsCanonicalS E signature.hi = false) : Verify E publicKey buffersList signature = false := by
  rw [Verify_eq, h]
  rfl

theorem IsCanonicalS_zero {Point : Type} (E : Externals Point) :
    IsCanonicalS E (Bytes.zero 32) = false := by
  simp [IsCanonicalS, ValidateEncodedSPart, Is_Reduced, Is_Zero]

theorem faultyModel_scReduce : ScReduceContract faultyModel := fun _ => Bytes.lo_cat _ _

/-! ## Round trip (C1) -/

/-- C1, counterexample: in a model of the collaborators that meets every contract and whose hash
digests are all zero, the key pair's public key is derived from its private key, `Sign` returns
(its response is all zero), and `Verify` rejects the signature `Sign` wrote. -/
theorem Verify_Sign_zero_response_rejected :
    (ScReduceContract zeroHashModel ∧ ScMulAddContract zeroHashModel ∧
      CryptoVerifyContract zeroHashModel ∧ CurveContract zeroHashModel 1) ∧
    zeroHashKeyPair.publicKey =
      ExtractPublicKeyFromPrivateKey zeroHashModel zeroHashKeyPair.privateKey ∧
    (Sign zeroHashModel zeroHashKeyPair sampleMessage (Bytes.zero 64)).2 = Completion.returned ∧
    (Sign zeroHashModel zeroHashKeyPair sampleMessage (Bytes.zero 64)).1.hi = Bytes.zero 32 ∧
    Verify zeroHashModel zeroHashKeyPair.publicKey sampleMessage
      (Sign zeroHashModel zeroHashKeyPair sampleMessage (Bytes.zero 64)).1 = false := by
  refine ⟨⟨cyclicModel_scReduce _ _, cyclicModel_scMulAdd _ _, cyclicModel_cryptoVerify _ _,
    cyclicModel_curve _ _⟩, rfl, ?_, ?_, ?_⟩
  · set_option maxRecDepth 100000 in decide
  · set_option maxRecDepth 100000 in decide
  · set_option maxRecDepth 100000 in decide

/-- C1, as amended: when the collaborators meet their contracts and the public key of the key pair
is derived from its private key, `Sign` returns; `Verify` accepts the signature `Sign` wrote when
the response half of that signature is not all zero, and rejects it when that response half is
all zero. -/
theorem Verify_Sign_roundtrip {Point : Type} [AddCommGroup Point] (E : Externals Point)
    (B : Point) (hred : ScReduceContract E) (hma : ScMulAddContract E)
    (hcv : CryptoVerifyContract E) (hcurve : CurveContract E B) (keyPair : KeyPair)
    (hpk : keyPair.publicKey = ExtractPublicKeyFromPrivateKey E keyPair.privateKey)
    (buffersList : List RawBuffer) (computedSignature : Signature) :
    (Sign E keyPair buffersList computedSignature).2 = Completion.returned ∧
    ((Sign E keyPair buffersList computedSignature).1.hi ≠ Bytes.zero 32 →
      Verify E keyPair.publicKey buffersList (Sign E keyPair buffersList computedSignature).1 =
        true) ∧
    ((Sign E keyPair buffersList computedSignature).1.hi = Bytes.zero 32 →
      Verify E keyPair.publicKey buffersList (Sign E keyPair buffersList computedSignature).1 =
        false) := by
  refine ⟨?_, fun hne => ?_, fun hz => ?_⟩
  · rw [Sign_snd]
    refine (CheckEncodedS_returned_iff E hred _).mpr ?_
    rw [response_value E hma]
    exact Nat.mod_lt _ groupOrder_pos
  · rw [Sign_fst, Bytes.hi_cat] at hne
    rw [Sign_fst]
    exact Verify_commitment_response E B hred hma hcv hcurve keyPair hpk buffersList hne
  · apply Verify_of_not_canonical
    rw [hz]
    exact IsCanonicalS_zero E

set_option maxRecDepth 100000 in
/-- C1, witness: in the model `sampleModel`, for the key pair `sampleKeyPair` and a three-byte
message, the response `Sign` computes is not zero and the round trip succeeds; in the model
`zeroHashModel` the response `Sign` computes is all zero and `Verify` rejects the signature. -/
theorem Verify_Sign_roundtrip_witness :
    ((Sign sampleModel sampleKeyPair sampleMessage (Bytes.zero 64)).1.hi ≠ Bytes.zero 32 ∧
      (Sign sampleModel sampleKeyPair sampleMessage (Bytes.zero 64)).2 = Completion.returned ∧
      Verify sampleModel sampleKeyPair.publicKey sampleMessage
        (Sign sampleModel sampleKeyPair sampleMessage (Bytes.zero 64)).1 = true) ∧
    ((Sign zeroHashModel zeroHashKeyPair sampleMessage (Bytes.zero 64)).1.hi = Bytes.zero 32 ∧
      Verify zeroHashModel zeroHashKeyPair.publicKey sampleMessage
        (Sign zeroHashModel zeroHashKeyPair sampleMessage (Bytes.zero 64)).1 = false) :=
  ⟨⟨by decide,
      (Verify_Sign_roundtrip sampleModel 1 (cyclicModel_scReduce _ _) (cyclicModel_scMulAdd _ _)
        (cyclicModel_cryptoVerify _ _) (cyclicModel_curve _ _) sampleKeyPair rfl sampleMessage
        (Bytes.zero 64)).1,
      (Verify_Sign_roundtrip sampleModel 1 (cyclicModel_scReduce _ _) (cyclicModel_scMulAdd _ _)
        (cyclicModel_cryptoVerify _ _) (cyclicModel_curve _ _) sampleKeyPair rfl sampleMessage
        (Bytes.zero 64)).2.1 (by decide)⟩,
    by decide,
    (Verify_Sign_roundtrip zeroHashModel 1 (cyclicModel_scReduce _ _) (cyclicModel_scMulAdd _ _)
      (cyclicModel_cryptoVerify _ _) (cyclicModel_curve _ _) zeroHashKeyPair rfl sampleMessage
      (Bytes.zero 64)).2.2 (by decide)⟩

/-! ## What `Verify` accepts (C2) -/

/-- C2: `Verify` returns true exactly when the response half passes `IsCanonicalS`, the public key
is not the all-zero key, the public key decodes (negated) to a point `A`, and the encoding of
`ge_double_scalarmult_vartime(h, A, response)`, which is `response × B + h × A`, equals the
commitment half, where `h` is the reduced digest of commitment, public key and message parts.
Assumed: `crypto_verify_32` returns 0 exactly on equal inputs, and what
`ge_double_scalarmult_vartime` computes. -/
theorem Verify_eq_true_iff {Point : Type} [AddCommGroup Point] (E : Externals Point) (B : Point)
    (hcv : CryptoVerifyContract E)
    (hds : ∀ (a : Bytes 32) (A : Point) (b : Bytes 32),
      E.ge_double_scalarmult_vartime a A b = leValue a.val • A + leValue b.val • B)
    (publicKey : Key) (buffersList : List RawBuffer) (signature : Signature) :
    Verify E publicKey buffersList signature = true ↔
      IsCanonicalS E signature.hi = true ∧ publicKey ≠ Bytes.zero Key_Size ∧
      ∃ A : Point, E.ge_frombytes_negate_vartime publicKey = some A ∧
        E.ge_double_scalarmult_vartime
            (E.sc_reduce (E.Sha3_512
              (signature.lo.val ++ publicKey.val ++ buffersList.flatten))).lo A signature.hi =
          leValue signature.hi.val • B +
            leValue (E.sc_reduce (E.Sha3_512
              (signature.lo.val ++ publicKey.val ++ buffersList.flatten))).lo.val • A ∧
        E.ge_tobytes (E.ge_double_scalarmult_vartime
            (E.sc_reduce (E.Sha3_512
              (signature.lo.val ++ publicKey.val ++ buffersList.flatten))).lo A signature.hi) =
          signature.lo := by
  rw [Verify_eq]
  unfold challengeScalar
  simp only [Bool.and_eq_true, decide_eq_true_eq, and_assoc]
  refine and_congr_right fun _ => and_congr_right fun _ => ?_
  cases hdec : E.ge_frombytes_negate_vartime publicKey with
  | none => simp
  | some A =>
    simp only [beq_iff_eq, Option.some.injEq, exists_eq_left']
    rw [eq_comm, hcv]
    constructor
    · intro h
      exact ⟨by rw [hds, add_comm], h⟩
    · intro h
      exact h.2

set_option maxRecDepth 100000 in
/-- C2, witness: in `sampleModel`, the signature `Sign` wrote verifies, so each condition holds
of it; here the first, that its response half passes `IsCanonicalS`. -/
theorem Verify_eq_true_iff_witness :
    IsCanonicalS sampleModel
      (Sign sampleModel sampleKeyPair sampleMessage (Bytes.zero 64)).1.hi = true :=
  ((Verify_eq_true_iff sampleModel 1 (cyclicModel_cryptoVerify _ _)
    (cyclicModel_curve _ _).double_scalarmult sampleKeyPair.publicKey sampleMessage
    (Sign sampleModel sampleKeyPair sampleMessage (Bytes.zero 64)).1).mp (by decide)).1

/-! ## Malleability (C3) -/

/-- C3: a signature whose response half, as a little-endian integer, is not below the group order
is rejected by `Verify`; and when a signature (commitment, response) verifies, the signature
(commitment, response + group order), whose response half encodes exactly that sum, is rejected.
Assumed: the contract of `sc_reduce`. -/
theorem Verify_rejects_unreduced_response {Point : Type} (E : Externals Point)
    (hred : ScReduceContract E) (publicKey : Key) (buffersList : List RawBuffer)
    (signature : Signature) :
    (groupOrder ≤ leValue signature.hi.val → Verify E publicKey buffersList signature = false) ∧
    (Verify E publicKey buffersList signature = true →
      leValue (encodeScalar (leValue signature.hi.val + groupOrder)).val =
        leValue signature.hi.val + groupOrder ∧
      Verify E publicKey buffersList
        (Bytes.cat signature.lo (encodeScalar (leValue signature.hi.val + groupOrder))) =
          false) := by
  have hrej : ∀ sig : Signature, groupOrder ≤ leValue sig.hi.val →
      Verify E publicKey buffersList sig = false := by
    intro sig hge
    apply Verify_of_not_canonical
    rw [← Bool.not_eq_true, IsCanonicalS_iff E hred]
    omega
  refine ⟨hrej signature, fun hv => ?_⟩
  have hcan : IsCanonicalS E signature.hi = true := by
    rw [Verify_eq] at hv
    simp only [Bool.and_eq_true] at hv
    exact hv.1.1
  have hlt := ((IsCanonicalS_iff E hred _).mp hcan).2
  have hval : leValue (encodeScalar (leValue signature.hi.val + groupOrder)).val =
      leValue signature.hi.val + groupOrder := by
    apply leValue_encodeScalar_of_lt
    have h1 := groupOrder_lt
    have h2 : (2 : ℕ) ^ 253 + 2 ^ 253 < 2 ^ 256 := by norm_num
    omega
  refine ⟨hval, hrej _ ?_⟩
  rw [Bytes.hi_cat, hval]
  omega

set_option maxRecDepth 100000 in
/-- C3, witness: in `sampleModel`, the signature `Sign` wrote verifies, and the signature with the
group order added to its response is rejected. -/
theorem Verify_rejects_unreduced_response_witness :
    Verify sampleModel sampleKeyPair.publicKey sampleMessage
      (Sign sampleModel sampleKeyPair sampleMessage (Bytes.zero 64)).1 = true ∧
    Verify sampleModel sampleKeyPair.publicKey sampleMessage
      (Bytes.cat (Sign sampleModel sampleKeyPair sampleMessage (Bytes.zero 64)).1.lo
        (encodeScalar
          (leValue (Sign sampleModel sampleKeyPair sampleMessage (Bytes.zero 64)).1.hi.val +
            groupOrder))) = false :=
  ⟨by decide,
    ((Verify_rejects_unreduced_response sampleModel (cyclicModel_scReduce _ _)
      sampleKeyPair.publicKey sampleMessage
      (Sign sampleModel sampleKeyPair sampleMessage (Bytes.zero 64)).1).2 (by decide)).2⟩

/-! ## The zero key (C4) -/

/-- C4: `Verify` with the all-zero public key returns false, for every sequence of message buffers
and every signature. -/
theorem Verify_zero_key {Point : Type} (E : Externals Point) (buffersList : List RawBuffer)
    (signature : Signature) : Verify E (Bytes.zero Key_Size) buffersList signature = false := by
  rw [Verify_eq]
  simp

theorem CurveContract.nsmul_injective {Point : Type} [AddCommGroup Point] {E : Externals Point}
    {B : Point} (hcurve : CurveContract E B) {m n : ℕ} (hm : m < groupOrder)
    (hn : n < groupOrder) (h : m • B = n • B) : m = n := by
  have key : ∀ a b : ℕ, a ≤ b → b < groupOrder → a • B = b • B → a = b := by
    intro a b hab hb he
    have hsub : (b - a) • B = 0 := by
      have h2 : (b - a) • B + a • B = a • B := by
        rw [← add_nsmul, Nat.sub_add_cancel hab, he]
      exact add_right_cancel (h2.trans (zero_add _).symm)
    have hdvd := (hcurve.order _).mp hsub
    have hzero : b - a = 0 := Nat.eq_zero_of_dvd_of_lt hdvd (by omega)
    omega
  rcases Nat.le_total m n with hle | hle
  · exact key m n hle hn h
  · exact (key n m hle hm h.symm).symm

/-! ## One response per commitment (C5) -/

/-- C5: when `Verify` accepts a signature, it rejects every signature that differs from it in the
response half only; so for a fixed public key, message and commitment at most one response
verifies.  Assumed: the contracts of `sc_reduce`, `crypto_verify_32` and the curve functions. -/
theorem Verify_response_unique {Point : Type} [AddCommGroup Point] (E : Externals Point)
    (B : Point) (hred : ScReduceContract E) (hcv : CryptoVerifyContract E)
    (hcurve : CurveContract E B) (publicKey : Key) (buffersList : List RawBuffer)
    (signature : Signature) (hv : Verify E publicKey buffersList signature = true)
    (encodedS : Bytes 32) (hdiff : encodedS ≠ signature.hi) :
    Verify E publicKey buffersList (Bytes.cat signature.lo encodedS) = false := by
  rw [← Bool.not_eq_true]
  intro hv2
  apply hdiff
  rw [Verify_eq] at hv hv2
  rw [Bytes.lo_cat, Bytes.hi_cat] at hv2
  simp only [Bool.and_eq_true] at hv hv2
  obtain ⟨⟨hcan, -⟩, heq⟩ := hv
  obtain ⟨⟨hcan2, -⟩, heq2⟩ := hv2
  have hlt := ((IsCanonicalS_iff E hred _).mp hcan).2
  have hlt2 := ((IsCanonicalS_iff E hred _).mp hcan2).2
  cases hdec : E.ge_frombytes_negate_vartime publicKey with
  | none =>
    rw [hdec] at heq
    exact absurd heq (by simp)
  | some A =>
    rw [hdec] at heq heq2
    simp only [beq_iff_eq] at heq heq2
    rw [eq_comm, hcv] at heq heq2
    have hpt := hcurve.tobytes_injective _ _ (heq2.trans heq.symm)
    rw [hcurve.double_scalarmult, hcurve.double_scalarmult] at hpt
    exact Bytes.eq_of_value_eq (hcurve.nsmul_injective hlt2 hlt (add_left_cancel hpt))

set_option maxRecDepth 100000 in
/-- C5, witness: in `sampleModel`, the signature `Sign` wrote verifies, and the signature with the
response replaced by the encoding of 5 is rejected. -/
theorem Verify_response_unique_witness :
    Verify sampleModel sampleKeyPair.publicKey sampleMessage
      (Sign sampleModel sampleKeyPair sampleMessage (Bytes.zero 64)).1 = true ∧
    encodeScalar 5 ≠ (Sign sampleModel sampleKeyPair sampleMessage (Bytes.zero 64)).1.hi ∧
    Verify sampleModel sampleKeyPair.publicKey sampleMessage
      (Bytes.cat (Sign sampleModel sampleKeyPair sampleMessage (Bytes.zero 64)).1.lo
        (encodeScalar 5)) = false :=
  ⟨by decide, by decide,
    Verify_response_unique sampleModel 1 (cyclicModel_scReduce _ _)
      (cyclicModel_cryptoVerify _ _) (cyclicModel_curve _ _) sampleKeyPair.publicKey
      sampleMessage (Sign sampleModel sampleKeyPair sampleMessage (Bytes.zero 64)).1 (by decide)
      (encodeScalar 5) (by decide)⟩

/-! ## Buffer lists (C6, C7) -/

/-- C6: `Sign` on a list of buffers leaves the same signature bytes, and ends the same way, as
`Sign` on the single buffer that is their concatenation; and the single-buffer overload is the
list overload on the one-element list. -/
theorem Sign_flatten {Point : Type} (E : Externals Point) (keyPair : KeyPair)
    (buffersList : List RawBuffer) (computedSignature : Signature) :
    Sign E keyPair buffersList computedSignature =
        Sign_dataBuffer E keyPair buffersList.flatten computedSignature ∧
      ∀ dataBuffer : RawBuffer, Sign_dataBuffer E keyPair dataBuffer computedSignature =
        Sign E keyPair [dataBuffer] computedSignature := by
  refine ⟨?_, fun _ => rfl⟩
  unfold Sign_dataBuffer
  apply Prod.ext
  · rw [Sign_fst, Sign_fst]
    simp only [response, commitment, nonceScalar, challengeScalar, List.flatten_cons,
      List.flatten_nil, List.append_nil]
  · rw [Sign_snd, Sign_snd]
    simp only [response, commitment, nonceScalar, challengeScalar, List.flatten_cons,
      List.flatten_nil, List.append_nil]

/-- C7: `Verify` on a list of buffers returns the same boolean as `Verify` on the single buffer
that is their concatenation. -/
theorem Verify_flatten {Point : Type} (E : Externals Point) (publicKey : Key)
    (buffersList : List RawBuffer) (signature : Signature) :
    Verify E publicKey buffersList signature =
      Verify_dataBuffer E publicKey buffersList.flatten signature := by
  unfold Verify_dataBuffer
  rw [Verify_eq, Verify_eq]
  simp only [challengeScalar, List.flatten_cons, List.flatten_nil, List.append_nil]

theorem CheckEncodedS_cases {Point : Type} (E : Externals Point) (encodedS : Bytes 32) :
    CheckEncodedS E encodedS = Completion.returned ∨
      CheckEncodedS E encodedS = Completion.threw ⟨"S part of signature invalid"⟩ := by
  unfold CheckEncodedS
  split
  · exact Or.inr rfl
  · exact Or.inl rfl

theorem CheckEncodedS_threw_iff {Point : Type} (E : Externals Point) (hred : ScReduceContract E)
    (encodedS : Bytes 32) :
    CheckEncodedS E encodedS = Completion.threw ⟨"S part of signature invalid"⟩ ↔
      groupOrder ≤ leValue encodedS.val := by
  have hret := CheckEncodedS_returned_iff E hred encodedS
  rcases CheckEncodedS_cases E encodedS with h | h
  · rw [h]
    have := hret.mp h
    constructor
    · intro hc
      cases hc
    · intro hge
      omega
  · rw [h]
    have hnot : ¬ leValue encodedS.val < groupOrder := by
      intro hlt
      rw [hret.mpr hlt] at h
      cases h
    constructor
    · intro _
      omega
    · intro _
      rfl

theorem cyclicModel_scMulAddReduced (hash : List Byte → Hash512) (hp : PrivateKey → Hash512) :
    ScMulAddReduced (cyclicModel hash hp) := by
  intro a b c
  rw [cyclicModel_scMulAdd, reduced_value_lt]
  exact Nat.mod_lt _ groupOrder_pos

/-! ## When `Sign` throws (C8) -/

/-- C8: `Sign` throws the out-of-range error exactly when the response it computed, the output of
`sc_muladd`, is not below the group order; and when that response is all zero, `Sign` returns and
the response half of the signature is all zero.  Assumed: the contract of `sc_reduce`. -/
theorem Sign_threw_iff {Point : Type} (E : Externals Point) (hred : ScReduceContract E)
    (keyPair : KeyPair) (buffersList : List RawBuffer) (computedSignature : Signature) :
    ((Sign E keyPair buffersList computedSignature).2 =
        Completion.threw ⟨"S part of signature invalid"⟩ ↔
      groupOrder ≤ leValue (E.sc_muladd
        (challengeScalar E (commitment E keyPair.privateKey buffersList) keyPair.publicKey
          buffersList)
        (clampedScalar (E.HashPrivateKey keyPair.privateKey))
        (nonceScalar E keyPair.privateKey buffersList)).val) ∧
    (E.sc_muladd
        (challengeScalar E (commitment E keyPair.privateKey buffersList) keyPair.publicKey
          buffersList)
        (clampedScalar (E.HashPrivateKey keyPair.privateKey))
        (nonceScalar E keyPair.privateKey buffersList) = Bytes.zero 32 →
      (Sign E keyPair buffersList computedSignature).2 = Completion.returned ∧
        (Sign E keyPair buffersList computedSignature).1.hi = Bytes.zero 32) := by
  rw [Sign_snd, Sign_fst, Bytes.hi_cat]
  refine ⟨CheckEncodedS_threw_iff E hred _, fun hz => ⟨?_, hz⟩⟩
  rw [CheckEncodedS_returned_iff E hred]
  have h0 : leValue (response E keyPair buffersList).val = 0 := (Bytes.eq_zero_iff _).mp hz
  rw [h0]
  exact groupOrder_pos

set_option maxRecDepth 100000 in
/-- C8, witness: with the collaborators `faultyModel`, whose `sc_muladd` returns the encoding of
the group order, `Sign` throws. -/
theorem Sign_threw_iff_witness :
    (Sign faultyModel sampleKeyPair sampleMessage (Bytes.zero 64)).2 =
      Completion.threw ⟨"S part of signature invalid"⟩ :=
  (Sign_threw_iff faultyModel faultyModel_scReduce sampleKeyPair sampleMessage
    (Bytes.zero 64)).1.mpr (by decide)

/-! ## The response of a returned `Sign` (C9) -/

/-- C9: whenever `Sign` returns without the error, the response half of the signature it wrote,
as a little-endian integer, is below the group order.  Assumed: the contract of `sc_reduce`. -/
theorem Sign_returned_response_lt {Point : Type} (E : Externals Point)
    (hred : ScReduceContract E) (keyPair : KeyPair) (buffersList : List RawBuffer)
    (computedSignature : Signature)
    (hret : (Sign E keyPair buffersList computedSignature).2 = Completion.returned) :
    leValue (Sign E keyPair buffersList computedSignature).1.hi.val < groupOrder := by
  rw [Sign_snd] at hret
  rw [Sign_fst, Bytes.hi_cat]
  exact (CheckEncodedS_returned_iff E hred _).mp hret

set_option maxRecDepth 100000 in
/-- C9, witness: in `sampleModel`, `Sign` returns and the response is below the group order. -/
theorem Sign_returned_response_lt_witness :
    (Sign sampleModel sampleKeyPair sampleMessage (Bytes.zero 64)).2 = Completion.returned ∧
    leValue (Sign sampleModel sampleKeyPair sampleMessage (Bytes.zero 64)).1.hi.val <
      groupOrder :=
  ⟨by decide,
    Sign_returned_response_lt sampleModel (cyclicModel_scReduce _ _) sampleKeyPair sampleMessage
      (Bytes.zero 64) (by decide)⟩

/-! ## `Sign` under the contract of `sc_muladd` (C10) -/

/-- C10: when `sc_muladd` returns a scalar reduced modulo the group order, `Sign` does not throw,
for every key pair, message and prior content of the output buffer.  Assumed also: the contract
of `sc_reduce`. -/
theorem Sign_returned {Point : Type} (E : Externals Point) (hred : ScReduceContract E)
    (hma : ScMulAddReduced E) (keyPair : KeyPair) (buffersList : List RawBuffer)
    (computedSignature : Signature) :
    (Sign E keyPair buffersList computedSignature).2 = Completion.returned := by
  rw [Sign_snd]
  exact (CheckEncodedS_returned_iff E hred _).mpr (hma _ _ _)

/-- C10, witness: `sampleModel` meets both contracts, and `Sign` returns there. -/
theorem Sign_returned_witness :
    (Sign sampleModel sampleKeyPair sampleMessage (Bytes.zero 64)).2 = Completion.returned :=
  Sign_returned sampleModel (cyclicModel_scReduce _ _) (cyclicModel_scMulAddReduced _ _)
    sampleKeyPair sampleMessage (Bytes.zero 64)

/-! ## The buffer after a failed `Sign` (C11) -/

set_option maxRecDepth 100000 in
/-- C11, counterexample: with the collaborators `faultyModel` (whose `sc_muladd` breaks its
contract, the one way `Sign` can fail), `Sign` called on an all-zero output buffer throws the
out-of-range error and leaves a buffer that is not all zero: its first half holds the commitment
and its second half the rejected response. -/
theorem Sign_threw_buffer_overwritten :
    (Sign faultyModel sampleKeyPair sampleMessage (Bytes.zero 64)).2 =
      Completion.threw ⟨"S part of signature invalid"⟩ ∧
    (Sign faultyModel sampleKeyPair sampleMessage (Bytes.zero 64)).1 ≠ Bytes.zero 64 ∧
    (Sign faultyModel sampleKeyPair sampleMessage (Bytes.zero 64)).1 =
      Bytes.cat (commitment faultyModel sampleKeyPair.privateKey sampleMessage)
        (encodeScalar groupOrder) := by
  decide

/-- C11, as amended: if `Sign` fails with the out-of-range error, the output buffer has been
overwritten: whatever it held before the call, it holds the commitment followed by the response
that was computed, and the value of that response is not below the group order.  Assumed: the
contract of `sc_reduce`. -/
theorem Sign_threw_buffer {Point : Type} (E : Externals Point) (hred : ScReduceContract E)
    (keyPair : KeyPair) (buffersList : List RawBuffer) (computedSignature : Signature)
    (hthrew : (Sign E keyPair buffersList computedSignature).2 =
      Completion.threw ⟨"S part of signature invalid"⟩) :
    (Sign E keyPair buffersList computedSignature).1 =
        Bytes.cat (commitment E keyPair.privateKey buffersList)
          (response E keyPair buffersList) ∧
      groupOrder ≤ leValue (Sign E keyPair buffersList computedSignature).1.hi.val := by
  rw [Sign_snd] at hthrew
  rw [Sign_fst, Bytes.hi_cat]
  exact ⟨rfl, (CheckEncodedS_threw_iff E hred _).mp hthrew⟩

set_option maxRecDepth 100000 in
/-- C11, witness: with the collaborators `faultyModel`, `Sign` throws, and the response half of
the buffer it leaves holds the group order. -/
theorem Sign_threw_buffer_witness :
    (Sign faultyModel sampleKeyPair sampleMessage (Bytes.zero 64)).2 =
      Completion.threw ⟨"S part of signature invalid"⟩ ∧
    groupOrder ≤ leValue (Sign faultyModel sampleKeyPair sampleMessage (Bytes.zero 64)).1.hi.val :=
  ⟨by decide,
    (Sign_threw_buffer faultyModel faultyModel_scReduce sampleKeyPair sampleMessage
      (Bytes.zero 64) (by decide)).2⟩

/-! ## Zeroed signatures (C12) -/

/-- C12: `Verify` returns false on the all-zero signature, and on every signature whose response
half is all zero, for every public key and message. -/
theorem Verify_zero_response {Point : Type} (E : Externals Point) (publicKey : Key)
    (buffersList : List RawBuffer) :
    Verify E publicKey buffersList (Bytes.zero 64) = false ∧
      ∀ signature : Signature, signature.hi = Bytes.zero 32 →
        Verify E publicKey buffersList signature = false := by
  have hz : ∀ signature : Signature, signature.hi = Bytes.zero 32 →
      Verify E publicKey buffersList signature = false := by
    intro signature h
    apply Verify_of_not_canonical
    rw [h]
    simp [IsCanonicalS, ValidateEncodedSPart, Is_Reduced, Is_Zero]
  refine ⟨hz _ ?_, hz⟩
  apply Subtype.ext
  simp [Bytes.hi, Bytes.zero]

set_option maxRecDepth 100000 in
/-- C12, witness: the signature `Sign` wrote in `zeroHashModel` has an all-zero response half,
and is rejected. -/
theorem Verify_zero_response_witness :
    (Sign zeroHashModel zeroHashKeyPair sampleMessage (Bytes.zero 64)).1.hi = Bytes.zero 32 ∧
    Verify zeroHashModel zeroHashKeyPair.publicKey sampleMessage
      (Sign zeroHashModel zeroHashKeyPair sampleMessage (Bytes.zero 64)).1 = false :=
  ⟨by decide,
    (Verify_zero_response zeroHashModel zeroHashKeyPair.publicKey sampleMessage).2 _ (by decide)⟩

/-! ## Undecodable public keys (C13) -/

theorem ThrowingExternals.ofReturning_neverThrows {Point : Type} (E : Externals Point) :
    (ThrowingExternals.ofReturning E).NeverThrows where
  Sha3_512 _ := ⟨_, rfl⟩
  sc_reduce _ := ⟨_, rfl⟩
  ge_frombytes_negate_vartime _ := ⟨_, rfl⟩
  ge_double_scalarmult_vartime _ _ _ := ⟨_, rfl⟩
  ge_tobytes _ := ⟨_, rfl⟩
  crypto_verify_32 _ _ := ⟨_, rfl⟩

theorem IsCanonicalS_throwing_returns {Point : Type} (E : ThrowingExternals Point)
    (hnt : E.NeverThrows) (encodedS : Bytes 32) :
    ∃ b : Bool, IsCanonicalS_throwing E encodedS = Except.ok b := by
  unfold IsCanonicalS_throwing ValidateEncodedSPart_throwing
  by_cases h0 : encodedS = Bytes.zero 32
  · exact ⟨_, by simp only [h0, if_true]; rfl⟩
  · obtain ⟨t, ht⟩ := hnt.sc_reduce (Bytes.cat encodedS (Bytes.zero 32))
    exact ⟨_, by simp only [h0, if_false, ht]; rfl⟩

theorem Verify_throwing_ofReturning {Point : Type} (E : Externals Point) (publicKey : Key)
    (buffersList : List RawBuffer) (signature : Signature) :
    Verify_throwing (ThrowingExternals.ofReturning E) publicKey buffersList signature =
      Except.ok (Verify E publicKey buffersList signature) := by
  have hcan : IsCanonicalS_throwing (ThrowingExternals.ofReturning E) signature.hi =
      Except.ok (IsCanonicalS E signature.hi) := by
    unfold IsCanonicalS_throwing ValidateEncodedSPart_throwing IsCanonicalS ValidateEncodedSPart
    by_cases h0 : signature.hi = Bytes.zero 32
    · simp only [h0, if_true]; rfl
    · simp only [h0, if_false]; rfl
  unfold Verify_throwing Verify
  simp only [hcan]
  by_cases hc : IsCanonicalS E signature.hi = true
  · by_cases hz : Bytes.zero Key_Size = publicKey
    · simp [hc, hz, bind, Except.bind]
    · cases hdec : E.ge_frombytes_negate_vartime publicKey with
      | none => simp [hc, hz, hdec, bind, Except.bind, ThrowingExternals.ofReturning,
          Sha3_512_Builder.final]
      | some A => simp [hc, hz, hdec, bind, Except.bind, ThrowingExternals.ofReturning,
          Sha3_512_Builder.final]
  · simp [hc, bind, Except.bind]

theorem Verify_throwing_returns {Point : Type} (E : ThrowingExternals Point)
    (hnt : E.NeverThrows) (publicKey : Key) (buffersList : List RawBuffer)
    (signature : Signature) :
    (∃ b : Bool, Verify_throwing E publicKey buffersList signature = Except.ok b) ∧
    (E.ge_frombytes_negate_vartime publicKey = Except.ok none →
      Verify_throwing E publicKey buffersList signature = Except.ok false) := by
  obtain ⟨c, hc⟩ := IsCanonicalS_throwing_returns E hnt signature.hi
  obtain ⟨d, hd⟩ := hnt.Sha3_512
    ((Sha3_512_Builder.init.updateList [signature.lo.val, publicKey.val]).updateList
      buffersList).absorbed
  obtain ⟨h, hh⟩ := hnt.sc_reduce d
  obtain ⟨A, hA⟩ := hnt.ge_frombytes_negate_vartime publicKey
  unfold Verify_throwing
  cases c with
  | false =>
    simp [hc, bind, Except.bind]
  | true =>
    by_cases hz : Bytes.zero Key_Size = publicKey
    · simp [hc, hz, bind, Except.bind]
    · cases A with
      | none => simp [hc, hz, hd, hh, hA, bind, Except.bind]
      | some P =>
        obtain ⟨R, hR⟩ := hnt.ge_double_scalarmult_vartime h.lo P signature.hi
        obtain ⟨s, hs⟩ := hnt.ge_tobytes R
        obtain ⟨v, hv⟩ := hnt.crypto_verify_32 s signature.lo
        simp [hc, hz, hd, hh, hA, hR, hs, hv, bind, Except.bind]

/-- C13: when the public key does not decode to a curve point (`ge_frombytes_negate_vartime`
fails), `Verify` returns false for every message and signature; and `Verify` never throws: when
no collaborator it calls throws, every call of `Verify` returns a boolean, which is the value of
`Verify` over the returned values. -/
theorem Verify_undecodable_key {Point : Type} (E : ThrowingExternals Point)
    (hnt : E.NeverThrows) (publicKey : Key) (buffersList : List RawBuffer)
    (signature : Signature) :
    (∃ b : Bool, Verify_throwing E publicKey buffersList signature = Except.ok b) ∧
    (E.ge_frombytes_negate_vartime publicKey = Except.ok none →
      Verify_throwing E publicKey buffersList signature = Except.ok false) ∧
    (∀ E0 : Externals Point,
      Verify_throwing (ThrowingExternals.ofReturning E0) publicKey buffersList signature =
          Except.ok (Verify E0 publicKey buffersList signature) ∧
        (E0.ge_frombytes_negate_vartime publicKey = none →
          Verify E0 publicKey buffersList signature = false)) := by
  refine ⟨(Verify_throwing_returns E hnt publicKey buffersList signature).1,
    (Verify_throwing_returns E hnt publicKey buffersList signature).2, fun E0 => ?_⟩
  refine ⟨Verify_throwing_ofReturning E0 publicKey buffersList signature, fun hnone => ?_⟩
  rw [Verify_eq, hnone]
  simp

set_option maxRecDepth 100000 in
/-- C13, witness: the collaborators of `sampleModel` do not throw, the key that encodes the group
order plus one does not decode there, and `Verify` returns false for the signature `Sign` wrote
when it is checked against that key. -/
theorem Verify_undecodable_key_witness :
    (ThrowingExternals.ofReturning sampleModel).ge_frombytes_negate_vartime
        (encodeScalar (groupOrder + 1)) = Except.ok none ∧
    Verify_throwing (ThrowingExternals.ofReturning sampleModel) (encodeScalar (groupOrder + 1))
      sampleMessage (Sign sampleModel sampleKeyPair sampleMessage (Bytes.zero 64)).1 =
        Except.ok false :=
  ⟨congrArg Except.ok
      (by decide : sampleModel.ge_frombytes_negate_vartime (encodeScalar (groupOrder + 1)) = none),
    (Verify_undecodable_key (ThrowingExternals.ofReturning sampleModel)
      (ThrowingExternals.ofReturning_neverThrows sampleModel) (encodeScalar (groupOrder + 1))
      sampleMessage (Sign sampleModel sampleKeyPair sampleMessage (Bytes.zero 64)).1).2.1
      (congrArg Except.ok
        (by decide :
          sampleModel.ge_frombytes_negate_vartime (encodeScalar (groupOrder + 1)) = none))⟩

/-! ## Determinism (C14) -/

/-- C14: two calls of `Sign` with the same key pair and the same message buffers leave the same
64 bytes and end the same way, whatever the output buffers held before. -/
theorem Sign_deterministic {Point : Type} (E : Externals Point) (keyPair : KeyPair)
    (buffersList : List RawBuffer) (computedSignature1 computedSignature2 : Signature) :
    Sign E keyPair buffersList computedSignature1 =
      Sign E keyPair buffersList computedSignature2 := by
  apply Prod.ext
  · rw [Sign_fst, Sign_fst]
  · rw [Sign_snd, Sign_snd]

/-! ## The canonical-form check (C15) -/

set_option maxRecDepth 100000 in
/-- C15, counterexample: the all-zero response has a value below the group order, yet it does not
pass `IsCanonicalS`, and `Verify` rejects the signature that carries it; shown in `sampleModel`,
which meets the contract of `sc_reduce`, with the commitment `Sign` wrote. -/
theorem IsCanonicalS_zero_rejected :
    ScReduceContract sampleModel ∧
    leValue (Bytes.zero 32).val < groupOrder ∧
    ValidateEncodedSPart sampleModel (Bytes.zero 32) = (Is_Zero ||| Is_Reduced) ∧
    IsCanonicalS sampleModel (Bytes.zero 32) = false ∧
    Verify sampleModel sampleKeyPair.publicKey sampleMessage
      (Bytes.cat (Sign sampleModel sampleKeyPair sampleMessage (Bytes.zero 64)).1.lo
        (Bytes.zero 32)) = false :=
  ⟨cyclicModel_scReduce _ _, by decide, by decide, by decide, by decide⟩

/-- C15, as amended: the canonical-form check of `Verify` passes exactly when the response half is
reduced and not zero: every response whose value is above zero and below the group order passes
`IsCanonicalS`, and every other response, the all-zero one included, makes `Verify` return false.
Assumed: the contract of `sc_reduce`. -/
theorem IsCanonicalS_iff_reduced_nonzero {Point : Type} (E : Externals Point)
    (hred : ScReduceContract E) (publicKey : Key) (buffersList : List RawBuffer)
    (signature : Signature) :
    (IsCanonicalS E signature.hi = true ↔
      0 < leValue signature.hi.val ∧ leValue signature.hi.val < groupOrder) ∧
    (¬ (0 < leValue signature.hi.val ∧ leValue signature.hi.val < groupOrder) →
      Verify E publicKey buffersList signature = false) := by
  refine ⟨IsCanonicalS_iff E hred _, fun hnot => ?_⟩
  apply Verify_of_not_canonical
  rw [← Bool.not_eq_true, IsCanonicalS_iff E hred]
  exact hnot

set_option maxRecDepth 100000 in
/-- C15, witness: in `sampleModel`, the response `Sign` wrote is above zero and below the group
order, and passes `IsCanonicalS`. -/
theorem IsCanonicalS_iff_reduced_nonzero_witness :
    (0 < leValue (Sign sampleModel sampleKeyPair sampleMessage (Bytes.zero 64)).1.hi.val ∧
      leValue (Sign sampleModel sampleKeyPair sampleMessage (Bytes.zero 64)).1.hi.val <
        groupOrder) ∧
    IsCanonicalS sampleModel
      (Sign sampleModel sampleKeyPair sampleMessage (Bytes.zero 64)).1.hi = true :=
  ⟨by decide,
    (IsCanonicalS_iff_reduced_nonzero sampleModel (cyclicModel_scReduce _ _)
      sampleKeyPair.publicKey sampleMessage
      (Sign sampleModel sampleKeyPair sampleMessage (Bytes.zero 64)).1).1.mpr (by decide)⟩

/-! ## Reducedness (C16) -/

/-- C16: `ValidateEncodedSPart(s)` has the flag `Is_Reduced` set exactly when the little-endian
value of `s` is below the group order; the scratch passed to `sc_reduce` for a non-zero `s` is `s`
followed by 32 zero bytes, its value is the value of `s`, and the flags say whether its reduction
is `s` again.  Assumed: the contract of `sc_reduce`. -/
theorem ValidateEncodedSPart_reduced_iff {Point : Type} (E : Externals Point)
    (hred : ScReduceContract E) (encodedS : Bytes 32) :
    (ValidateEncodedSPart E encodedS &&& Is_Reduced ≠ 0 ↔ leValue encodedS.val < groupOrder) ∧
    leValue (Bytes.cat encodedS (Bytes.zero 32)).val = leValue encodedS.val ∧
    (encodedS ≠ Bytes.zero 32 →
      ValidateEncodedSPart E encodedS =
        if (E.sc_reduce (Bytes.cat encodedS (Bytes.zero 32))).lo = encodedS then Is_Reduced
        else 0) := by
  refine ⟨?_, Bytes.value_cat_zero _, fun hne => ?_⟩
  · rw [ValidateEncodedSPart_eq E hred]
    by_cases h0 : leValue encodedS.val = 0
    · simp [h0, Is_Reduced, Is_Zero, groupOrder_pos]
    · by_cases hlt : leValue encodedS.val < groupOrder
      · simp [h0, hlt, Is_Reduced]
      · simp [h0, hlt, Is_Reduced]
  · unfold ValidateEncodedSPart
    simp only [hne, if_false, ne_eq, ite_not]

set_option maxRecDepth 100000 in
/-- C16, witness: in `sampleModel`, the encoding of the group order itself is not flagged as
reduced, and the encoding of the group order minus one is. -/
theorem ValidateEncodedSPart_reduced_iff_witness :
    ¬ (ValidateEncodedSPart sampleModel (encodeScalar groupOrder) &&& Is_Reduced ≠ 0) ∧
    ValidateEncodedSPart sampleModel (encodeScalar (groupOrder - 1)) &&& Is_Reduced ≠ 0 :=
  ⟨fun h => absurd
      ((ValidateEncodedSPart_reduced_iff sampleModel (cyclicModel_scReduce _ _)
        (encodeScalar groupOrder)).1.mp h) (by decide),
    (ValidateEncodedSPart_reduced_iff sampleModel (cyclicModel_scReduce _ _)
      (encodeScalar (groupOrder - 1))).1.mpr (by decide)⟩

/-! ## The three classes (C17) -/

/-- C17: `ValidateEncodedSPart` returns one of `Is_Zero | Is_Reduced` (3), `Is_Reduced` (1) and
0; it returns `Is_Zero | Is_Reduced` exactly when all 32 bytes are zero; and whenever the flag
`Is_Zero` is set in its result, so is `Is_Reduced`. -/
theorem ValidateEncodedSPart_classes {Point : Type} (E : Externals Point) (encodedS : Bytes 32) :
    (ValidateEncodedSPart E encodedS = 3 ∨ ValidateEncodedSPart E encodedS = 1 ∨
      ValidateEncodedSPart E encodedS = 0) ∧
    (Is_Zero ||| Is_Reduced = 3 ∧ Is_Reduced = 1) ∧
    (ValidateEncodedSPart E encodedS = (Is_Zero ||| Is_Reduced) ↔
      ∀ b ∈ encodedS.val, b = 0) ∧
    (ValidateEncodedSPart E encodedS &&& Is_Zero ≠ 0 →
      ValidateEncodedSPart E encodedS &&& Is_Reduced ≠ 0) := by
  have hz : encodedS = Bytes.zero 32 ↔ ∀ b ∈ encodedS.val, b = 0 := by
    constructor
    · intro h b hb
      rw [h] at hb
      exact List.eq_of_mem_replicate hb
    · intro h
      apply Subtype.ext
      show encodedS.val = List.replicate 32 0
      rw [List.eq_replicate_iff]
      exact ⟨encodedS.property, h⟩
  rw [← hz]
  unfold ValidateEncodedSPart
  by_cases h0 : encodedS = Bytes.zero 32
  · simp [h0, Is_Zero, Is_Reduced]
  · by_cases hr : (E.sc_reduce (Bytes.cat encodedS (Bytes.zero 32))).lo = encodedS
    · simp [h0, hr, Is_Zero, Is_Reduced]
    · simp [h0, hr, Is_Zero, Is_Reduced]

set_option maxRecDepth 100000 in
/-- C17, witness: in `sampleModel`, the all-zero encoding is classified 3, and an encoding with
the flag `Is_Zero` set has the flag `Is_Reduced` set. -/
theorem ValidateEncodedSPart_classes_witness :
    ValidateEncodedSPart sampleModel (Bytes.zero 32) = 3 ∧
    ValidateEncodedSPart sampleModel (Bytes.zero 32) &&& Is_Reduced ≠ 0 :=
  ⟨by decide,
    (ValidateEncodedSPart_classes sampleModel (Bytes.zero 32)).2.2.2 (by decide)⟩

/-! ## Clamping (C18) -/

/-- C18: for every 64-byte private-key hash, the clamped scalar `a` that `Sign` passes to
`sc_muladd` (bytes `[0, 32)` after clamping, as a little-endian integer) is a multiple of 8 with
`2^254 <= a < 2^255`; clamping changes only the low 3 bits of byte 0 and the top 2 bits of byte
31 (bytes 1 to 30, the high 5 bits of byte 0 and the low 6 bits of byte 31 are those of the
hash), and bytes `[32, 64)` are those of the hash. -/
theorem clamp_spec (privHash : Hash512) :
    (leValue (clamp privHash).lo.val % 8 = 0 ∧ 2 ^ 254 ≤ leValue (clamp privHash).lo.val ∧
      leValue (clamp privHash).lo.val < 2 ^ 255) ∧
    (∀ i : Nat, 0 < i → i < 31 → (clamp privHash).lo.get i = privHash.lo.get i) ∧
    ((clamp privHash).lo.get 0).val / 8 = (privHash.lo.get 0).val / 8 ∧
    ((clamp privHash).lo.get 31).val % 64 = (privHash.lo.get 31).val % 64 ∧
    (clamp privHash).hi = privHash.hi := by
  have hlo : ∀ i : Nat, i < 32 → privHash.lo.get i = privHash.get i := by
    intro i hi
    simp [Bytes.get, Bytes.lo, List.getD_eq_getElem?_getD, List.getElem?_take, hi]
  have hget := clampedScalar_get privHash
  refine ⟨clampedScalar_value privHash, ?_, ?_, ?_, clamp_hi privHash⟩
  · intro i h0 h31
    have h := hget i (by omega)
    rw [if_neg (by omega), if_neg (by omega)] at h
    rw [hlo i (by omega)]
    exact h
  · have h := hget 0 (by decide)
    rw [if_pos rfl] at h
    rw [hlo 0 (by decide)]
    show ((clampedScalar privHash).get 0).val / 8 = _
    rw [h]
    exact (clear_low_bits _).2
  · have h := hget 31 (by decide)
    rw [if_neg (by decide), if_pos rfl] at h
    rw [hlo 31 (by decide)]
    show ((clampedScalar privHash).get 31).val % 64 = _
    rw [h]
    exact (clamp_high_bits _).2.2

set_option maxRecDepth 100000 in
/-- C18, witness: for the digest whose first byte is 255, byte 7 of the clamped half is byte 7 of
the digest, and byte 0 becomes 248. -/
theorem clamp_spec_witness :
    (clamp (digestOfByte 255)).lo.get 7 = (digestOfByte 255).lo.get 7 ∧
    (clamp (digestOfByte 255)).lo.get 0 = 248 :=
  ⟨(clamp_spec (digestOfByte 255)).2.1 7 (by decide) (by decide), by decide⟩

/-! ## The commitment half (C19) -/

/-- C19: the first 32 bytes of the signature `Sign` writes are
`ge_p3_tobytes(ge_scalarmult_base(r))`, where `r` is `sc_reduce` of the digest of
`privHash[32:64)` followed by the message parts and `privHash` is the hash of the private key; they
are the same for every public key stored in the key pair. -/
theorem Sign_commitment {Point : Type} (E : Externals Point) (keyPair : KeyPair)
    (buffersList : List RawBuffer) (computedSignature : Signature) :
    (Sign E keyPair buffersList computedSignature).1.lo =
        E.ge_p3_tobytes (E.ge_scalarmult_base
          (E.sc_reduce (E.Sha3_512
            ((E.HashPrivateKey keyPair.privateKey).hi.val ++ buffersList.flatten))).lo) ∧
      ∀ publicKey : Key,
        (Sign E ⟨keyPair.privateKey, publicKey⟩ buffersList computedSignature).1.lo =
          (Sign E keyPair buffersList computedSignature).1.lo := by
  refine ⟨?_, fun publicKey => ?_⟩
  · rw [Sign_fst, Bytes.lo_cat]
    rfl
  · rw [Sign_fst, Sign_fst, Bytes.lo_cat, Bytes.lo_cat]

/-! ## The response half (C20) -/

/-- C20: the last 32 bytes of the signature `Sign` writes are `sc_muladd(h, a, r)`, where `r` is
the reduced nonce scalar, `a` the clamped first half of the private-key hash, and `h` the reduced
digest of the commitment `Sign` has written, the public key of the key pair and the message
parts; under the contract of `sc_muladd` their value is `(r + h * a) mod groupOrder`. -/
theorem Sign_response {Point : Type} (E : Externals Point) (hma : ScMulAddContract E)
    (keyPair : KeyPair) (buffersList : List RawBuffer) (computedSignature : Signature) :
    (Sign E keyPair buffersList computedSignature).1.hi =
        E.sc_muladd
          (E.sc_reduce (E.Sha3_512
            ((Sign E keyPair buffersList computedSignature).1.lo.val ++ keyPair.publicKey.val ++
              buffersList.flatten))).lo
          (clamp (E.HashPrivateKey keyPair.privateKey)).lo
          (E.sc_reduce (E.Sha3_512
            ((E.HashPrivateKey keyPair.privateKey).hi.val ++ buffersList.flatten))).lo ∧
      leValue (Sign E keyPair buffersList computedSignature).1.hi.val =
        (leValue (E.sc_reduce (E.Sha3_512
            ((E.HashPrivateKey keyPair.privateKey).hi.val ++ buffersList.flatten))).lo.val +
          leValue (E.sc_reduce (E.Sha3_512
            ((Sign E keyPair buffersList computedSignature).1.lo.val ++ keyPair.publicKey.val ++
              buffersList.flatten))).lo.val *
            leValue (clamp (E.HashPrivateKey keyPair.privateKey)).lo.val) % groupOrder := by
  have hfst := Sign_fst E keyPair buffersList computedSignature
  have hval := response_value E hma keyPair buffersList
  rw [hfst, Bytes.lo_cat, Bytes.hi_cat]
  refine ⟨rfl, ?_⟩
  rw [hval, add_comm]
  rfl

set_option maxRecDepth 100000 in
/-- C20, witness: in `sampleModel`, which meets the contract of `sc_muladd`, the response `Sign`
wrote has the value `(r + h * a) mod groupOrder` for the scalars `r`, `h` and `a` it computed. -/
theorem Sign_response_witness :
    leValue (Sign sampleModel sampleKeyPair sampleMessage (Bytes.zero 64)).1.hi.val =
      (leValue (nonceScalar sampleModel sampleKeyPair.privateKey sampleMessage).val +
        leValue (challengeScalar sampleModel
          (Sign sampleModel sampleKeyPair sampleMessage (Bytes.zero 64)).1.lo
          sampleKeyPair.publicKey sampleMessage).val *
          leValue (clampedScalar (sampleModel.HashPrivateKey sampleKeyPair.privateKey)).val) %
        groupOrder :=
  (Sign_response sampleModel (cyclicModel_scMulAdd _ _) sampleKeyPair sampleMessage
    (Bytes.zero 64)).2

end catapult.crypto
